import Mathlib

/-!
# Verification of the Swiss Round Robin scoring/standings engine

Shallow embedding of `api/src/main.py`: the round-robin fixture generator,
the score-confirmation store and consensus resolver, the points engine, the
standings aggregator, and the demo-data seeding routine.  SQLite rows are
modelled as Lean structures, tables as lists of rows, and the per-request
SQL queries as list operations (filters, sorts, folds) mirroring the SQL
text.  Timestamps and password hashes are externally supplied values
(parameters), matching their nondeterministic origin in the source.
-/

set_option maxHeartbeats 1000000

namespace SRR

/-- `Role = Literal['player', 'viewer']` (main.py line 31). -/
inductive Role where
  | player
  | viewer
deriving DecidableEq, Repr

/-- A row of the `users` table (schema in `_init_db`, main.py lines 701-708). -/
structure UserRow where
  id : Nat
  handle : String
  display_name : String
  password_hash : String
  role : Role
deriving DecidableEq, Repr

/-- A row of the `matches` table (schema in `_init_db`, main.py lines 727-738).
Scores are small nonnegative integers (validated 0..999 at the API boundary),
modelled as `Nat`. -/
structure MatchRow where
  id : Nat
  round_number : Nat
  table_number : Nat
  player1_id : Nat
  player2_id : Nat
  confirmed_score1 : Option Nat
  confirmed_score2 : Option Nat
  confirmed_at : Option String
deriving DecidableEq, Repr

/-- A row of the `score_confirmations` table (schema in `_init_db`, main.py
lines 740-751).  The surrogate `id` column is never consulted by the domain
logic (lookups key on `(match_id, player_id)`, ordering is by `player_id`),
so it is omitted. -/
structure ConfRow where
  match_id : Nat
  player_id : Nat
  score1 : Nat
  score2 : Nat
  created_at : String
  updated_at : String
deriving DecidableEq, Repr

/-- The relational store, restricted to the three tables the claims are
about.  (`sessions` and `social_identities` belong to the excluded
authentication collaborator and are never read by the engine under
verification.) -/
structure DB where
  users : List UserRow
  matches' : List MatchRow
  confirmations : List ConfRow
deriving DecidableEq, Repr

/-- `UserDto` (main.py lines 37-41): the authenticated principal as produced
by `_require_user`. -/
structure UserDto where
  id : Nat
  handle : String
  display_name : String
  role : Role
deriving DecidableEq, Repr

/-- The HTTP error kinds raised by the endpoints (main.py: `HTTPException`
status codes 401/403/404/409). -/
inductive ApiErr where
  | unauthorized
  | forbidden
  | notFound
  | conflict
deriving DecidableEq, Repr

/-- `_match_points` (main.py lines 280-285). -/
def _match_points (score1 score2 : Nat) : Nat × Nat :=
  if score1 > score2 then (3, 0)
  else if score2 > score1 then (0, 3)
  else (1, 1)

/-! ## Fixture generator (`_generate_round_robin`, main.py lines 288-313) -/

/-- Lines 289-291: `participants` starts as the player list and receives one
`None` bye sentinel when the count is odd. -/
def padParticipants (player_ids : List Nat) : List (Option Nat) :=
  player_ids.map some ++ (if player_ids.length % 2 = 1 then [none] else [])

/-- Line 311: `participants = [participants[0], participants[-1],
*participants[1:-1]]`.  (For a singleton `[x]`, Python's `participants[-1]`
is `x` and the slice is empty, giving `[x, x]`; the empty case would raise
in Python and is unreachable, since the loop body only runs for
`count ≥ 2`.) -/
def rotateParticipants : List (Option Nat) → List (Option Nat)
  | [] => []
  | x :: rest =>
    match rest.getLast? with
    | none => [x, x]
    | some lastElem => x :: lastElem :: rest.dropLast

/-- Lines 298-308: one round's pairs.  `count` and `half = count / 2` are the
values computed once before the loop; `p` is the current arrangement.  The
wildcard branch covers Python's `continue` on a bye (`None`) slot; an
out-of-range index cannot occur since `i < half` and `count - 1 - i < count`.
-/
def roundPairs (count r : Nat) (p : List (Option Nat)) : List (Nat × Nat) :=
  (List.range (count / 2)).filterMap (fun i =>
    match p.get? i, p.get? (count - 1 - i) with
    | some (some left), some (some right) =>
      some (if r % 2 = 0 ∧ i = 0 then (right, left) else (left, right))
    | _, _ => none)

/-- The `for round_index in range(count - 1)` loop (lines 297-311), with the
remaining iteration count, the current round index, and the mutable
`participants` list made explicit. -/
def rrGo (count : Nat) : Nat → Nat → List (Option Nat) → List (List (Nat × Nat))
  | 0, _, _ => []
  | k + 1, r, p => roundPairs count r p :: rrGo count k (r + 1) (rotateParticipants p)

/-- `_generate_round_robin` (main.py lines 288-313). -/
def _generate_round_robin (player_ids : List Nat) : List (List (Nat × Nat)) :=
  let participants := padParticipants player_ids
  rrGo participants.length (participants.length - 1) 0 participants

/-! ## Consensus resolver (`_confirm_scores_if_consensus`, main.py 458-497) -/

/-- The `ORDER BY player_id` of the confirmation query (main.py line 473),
modelled by a stable insertion sort. -/
def sortByPlayerId (l : List ConfRow) : List ConfRow :=
  l.insertionSort (fun a b => a.player_id ≤ b.player_id)

/-- The pure per-match core of `_confirm_scores_if_consensus` (main.py lines
465-497): given the match row and the match's confirmation rows, either
stamp consensus scores or return the row unchanged.  `now` is the
`_utc_now()` timestamp.  The `[]` branch is unreachable (`length < 2`
already returned). -/
def _confirm_scores_if_consensus (m : MatchRow) (confs : List ConfRow) (now : String) :
    MatchRow :=
  if m.confirmed_score1.isSome && m.confirmed_score2.isSome then m
  else
    let confirmations := sortByPlayerId confs
    if confirmations.length < 2 then m
    else
      match confirmations with
      | [] => m
      | first :: rest =>
        if rest.all (fun row => row.score1 == first.score1 && row.score2 == first.score2) then
          { m with
            confirmed_score1 := some first.score1
            confirmed_score2 := some first.score2
            confirmed_at := some now }
        else m

/-- `_confirm_scores_if_consensus` at the store level (main.py lines
458-497): look the match up by id (returning unchanged when absent, line
462-463), collect its confirmation rows (`WHERE match_id = ?`), and write
the possibly-updated row back (`UPDATE matches ... WHERE id = ?`). -/
def _confirm_scores_if_consensus_db (db : DB) (match_id : Nat) (now : String) : DB :=
  match db.matches'.find? (fun m => m.id == match_id) with
  | none => db
  | some m =>
    let m' := _confirm_scores_if_consensus m
      (db.confirmations.filter (fun c => c.match_id == match_id)) now
    { db with matches' := db.matches'.map (fun mm => if mm.id == match_id then m' else mm) }

/-! ## Match status derivation (`_build_match_dto`, main.py 366-375) -/

/-- The three values of the `status` literal in `MatchDto`. -/
inductive MatchStatus where
  | pending
  | disputed
  | confirmed
deriving DecidableEq, Repr

/-- The `distinct_confirmations` subquery of `_fetch_matches` (main.py lines
419-423): `COUNT(DISTINCT sc.score1 || ':' || sc.score2)` over the match's
confirmation rows.  The `':'`-separated rendering is injective on integer
scores, so the count equals the number of distinct score pairs. -/
def distinct_confirmations (confs : List ConfRow) (match_id : Nat) : Nat :=
  (((confs.filter (fun c => c.match_id == match_id)).map
    (fun c => (c.score1, c.score2))).dedup).length

/-- The `confirmations` subquery of `_fetch_matches` (main.py line 418). -/
def confirmations_count (confs : List ConfRow) (match_id : Nat) : Nat :=
  (confs.filter (fun c => c.match_id == match_id)).length

/-- The status derivation of `_build_match_dto` (main.py lines 367-375),
taking the row and the `distinct_confirmations` aggregate. -/
def match_status (m : MatchRow) (distinct_confs : Nat) : MatchStatus :=
  if m.confirmed_score1.isSome && m.confirmed_score2.isSome then .confirmed
  else if distinct_confs > 1 then .disputed
  else .pending

/-! ## Confirmation submission (`confirm_match_score`, main.py 979-1062) -/

/-- The `INSERT ... ON CONFLICT(match_id, player_id) DO UPDATE` upsert
(main.py lines 1010-1021): overwrite the scores and `updated_at` of an
existing `(match_id, player_id)` row, else append a fresh row. -/
def upsert_confirmation (confs : List ConfRow) (match_id player_id score1 score2 : Nat)
    (now : String) : List ConfRow :=
  if confs.any (fun c => c.match_id == match_id && c.player_id == player_id) then
    confs.map (fun c =>
      if c.match_id == match_id && c.player_id == player_id then
        { c with score1 := score1, score2 := score2, updated_at := now }
      else c)
  else
    confs ++ [{ match_id := match_id, player_id := player_id, score1 := score1,
                score2 := score2, created_at := now, updated_at := now }]

/-- `confirm_match_score` (main.py lines 979-1062), after `_require_user`
has produced the principal: role gate (986-987), match lookup (990-1000),
participant gate (1002-1005), already-confirmed gate (1007-1008), upsert
(1010-1021), consensus check (1023).  Failures raise before any write, so
the error branches carry no state. -/
def confirm_match_score (db : DB) (user : UserDto) (match_id : Nat)
    (score1 score2 : Nat) (now : String) : Except ApiErr DB :=
  if user.role ≠ Role.player then .error .forbidden
  else
    match db.matches'.find? (fun m => m.id == match_id) with
    | none => .error .notFound
    | some match_row =>
      if user.id ≠ match_row.player1_id ∧ user.id ≠ match_row.player2_id then
        .error .forbidden
      else if match_row.confirmed_score1.isSome && match_row.confirmed_score2.isSome then
        .error .conflict
      else
        let db' := { db with
          confirmations := upsert_confirmation db.confirmations match_id user.id
            score1 score2 now }
        .ok (_confirm_scores_if_consensus_db db' match_id now)

/-! ## Standings aggregator (`_standings`, main.py 500-608) -/

/-- One value of the `stats` accumulator dictionary (main.py lines 511-526):
identity fields plus zero-initialised tallies. -/
structure StatsRow where
  player_id : Nat
  handle : String
  display_name : String
  played : Nat
  wins : Nat
  draws : Nat
  losses : Nat
  goals_for : Nat
  goals_against : Nat
  points : Nat
  round_points : Nat
deriving DecidableEq, Repr

/-- A `StandingRowDto` (main.py lines 104-117).  `goal_difference` can be
negative, hence `Int`. -/
structure StandingRowDto where
  position : Nat
  player_id : Nat
  handle : String
  display_name : String
  played : Nat
  wins : Nat
  draws : Nat
  losses : Nat
  goals_for : Nat
  goals_against : Nat
  goal_difference : Int
  round_points : Nat
  points : Nat
deriving DecidableEq, Repr

/-- The zeroed initial stats of one roster player (main.py lines 511-526). -/
def initStats (u : UserRow) : StatsRow :=
  { player_id := u.id, handle := u.handle, display_name := u.display_name,
    played := 0, wins := 0, draws := 0, losses := 0,
    goals_for := 0, goals_against := 0, points := 0, round_points := 0 }

/-- The body of the per-match fold (main.py lines 543-574) applied to one
stats entry: the updates for the entry keyed `player1_id`, the entry keyed
`player2_id`, and no change otherwise.  (A match whose two player ids are
equal would alias a single dictionary entry in Python; the schedule never
produces one, and theorems assume distinct participants.) -/
def applyMatchToRow (up_to_round : Option Nat) (m : MatchRow) (s1 s2 : Nat)
    (s : StatsRow) : StatsRow :=
  let (p1_points, p2_points) := _match_points s1 s2
  let roundHit : Bool :=
    match up_to_round with
    | some u => m.round_number == u
    | none => false
  if s.player_id = m.player1_id then
    { s with
      played := s.played + 1
      goals_for := s.goals_for + s1
      goals_against := s.goals_against + s2
      points := s.points + p1_points
      round_points := s.round_points + (if roundHit then p1_points else 0)
      wins := s.wins + (if s1 > s2 then 1 else 0)
      losses := s.losses + (if s2 > s1 then 1 else 0)
      draws := s.draws + (if s1 = s2 then 1 else 0) }
  else if s.player_id = m.player2_id then
    { s with
      played := s.played + 1
      goals_for := s.goals_for + s2
      goals_against := s.goals_against + s1
      points := s.points + p2_points
      round_points := s.round_points + (if roundHit then p2_points else 0)
      wins := s.wins + (if s2 > s1 then 1 else 0)
      losses := s.losses + (if s1 > s2 then 1 else 0)
      draws := s.draws + (if s1 = s2 then 1 else 0) }
  else s

/-- One iteration of `for match in matches` (main.py lines 543-574) over the
whole accumulator.  Matches reaching the loop always have both confirmed
scores (the SQL `WHERE` clause); the wildcard branch is unreachable. -/
def applyMatch (up_to_round : Option Nat) (acc : List StatsRow) (m : MatchRow) :
    List StatsRow :=
  match m.confirmed_score1, m.confirmed_score2 with
  | some s1, some s2 => acc.map (applyMatchToRow up_to_round m s1 s2)
  | _, _ => acc

/-- The sort key comparison of main.py lines 576-584: Python's
`sorted(key=lambda row: (-points, -(gf - ga), -gf, display_name.lower()))`,
i.e. points descending, then goal difference descending, then goals-for
descending, then lowercased display name ascending (lexicographic tuple
comparison). -/
def standingsLE (a b : StatsRow) : Prop :=
  b.points < a.points ∨ (a.points = b.points ∧
    ((b.goals_for : Int) - b.goals_against < (a.goals_for : Int) - a.goals_against ∨
      ((a.goals_for : Int) - a.goals_against = (b.goals_for : Int) - b.goals_against ∧
        (b.goals_for < a.goals_for ∨ (a.goals_for = b.goals_for ∧
          a.display_name.toLower ≤ b.display_name.toLower)))))

instance : DecidableRel standingsLE := fun a b => by
  unfold standingsLE
  infer_instance

/-- The `WHERE` clause of the match query (main.py lines 501-505): both
confirmed scores non-null, and `round_number ≤ up_to_round` when the filter
is supplied. -/
def standingsMatchFilter (up_to_round : Option Nat) (m : MatchRow) : Bool :=
  m.confirmed_score1.isSome && m.confirmed_score2.isSome &&
    (match up_to_round with
     | some u => m.round_number ≤ u
     | none => true)

/-- `_standings` (main.py lines 500-608).  `users` and `matchRows` are the
two tables; the roster query's `ORDER BY display_name` and the match
query's `ORDER BY round_number, id` are modelled by stable merge sorts (the
relative order of rows the comparisons do not separate is up to SQLite and
irrelevant to the claims). -/
def _standings (users : List UserRow) (matchRows : List MatchRow)
    (up_to_round : Option Nat) : List StandingRowDto :=
  let roster := (users.filter (fun u => u.role == Role.player)).insertionSort
    (fun a b => a.display_name ≤ b.display_name)
  let relevant := (matchRows.filter (standingsMatchFilter up_to_round)).insertionSort
    (fun a b => a.round_number < b.round_number ∨
      (a.round_number = b.round_number ∧ a.id ≤ b.id))
  let finalStats := relevant.foldl (applyMatch up_to_round) (roster.map initStats)
  let ordered := finalStats.insertionSort standingsLE
  ordered.enum.map (fun pr =>
    { position := pr.1 + 1
      player_id := pr.2.player_id
      handle := pr.2.handle
      display_name := pr.2.display_name
      played := pr.2.played
      wins := pr.2.wins
      draws := pr.2.draws
      losses := pr.2.losses
      goals_for := pr.2.goals_for
      goals_against := pr.2.goals_against
      goal_difference := (pr.2.goals_for : Int) - pr.2.goals_against
      round_points := pr.2.round_points
      points := pr.2.points })

/-! ## Demo seeding (`_seed_demo_data`, main.py 316-363) -/

/-- The `_seed_demo_data` return value (main.py lines 329 and 363). -/
structure SeedResult where
  players : Nat
  matchCount : Nat
  seeded : Nat
deriving DecidableEq, Repr

/-- The `demo_users` literal (main.py lines 331-337). -/
def demo_users : List (String × String × String × Role) :=
  [("alice", "Alice Mercer", "pass123", Role.player),
   ("bob", "Bob Singh", "pass123", Role.player),
   ("carla", "Carla Diaz", "pass123", Role.player),
   ("diego", "Diego Kim", "pass123", Role.player),
   ("viewer", "Live Viewer", "viewer123", Role.viewer)]

/-- `_seed_demo_data` (main.py lines 316-363).  `hash` stands for the salted
`_hash_password` (random salt, hence a parameter), and `firstUserId` /
`firstMatchId` for the SQLite AUTOINCREMENT state that assigns consecutive
row ids to the inserted users and matches. -/
def _seed_demo_data (db : DB) (force : Bool) (hash : String → String)
    (firstUserId firstMatchId : Nat) : DB × SeedResult :=
  let db := if force then { users := [], matches' := [], confirmations := [] } else db
  if db.users.length > 0 then
    (db, { players := (db.users.filter (fun u => u.role == Role.player)).length,
           matchCount := db.matches'.length, seeded := 0 })
  else
    let newUsers := demo_users.enum.map (fun pr =>
      { id := firstUserId + pr.1, handle := pr.2.1, display_name := pr.2.2.1,
        password_hash := hash pr.2.2.2.1, role := pr.2.2.2.2 })
    let player_ids := (((db.users ++ newUsers).filter
      (fun u => u.role == Role.player)).insertionSort (fun a b => a.id ≤ b.id)).map
        (fun u => u.id)
    let rounds := _generate_round_robin player_ids
    let fixtures := (rounds.enum.map (fun rpr =>
      rpr.2.enum.map (fun tpr => (rpr.1 + 1, tpr.1 + 1, tpr.2)))).flatten
    let newMatches := fixtures.enum.map (fun fpr =>
      { id := firstMatchId + fpr.1, round_number := fpr.2.1, table_number := fpr.2.2.1,
        player1_id := fpr.2.2.2.1, player2_id := fpr.2.2.2.2,
        confirmed_score1 := none, confirmed_score2 := none, confirmed_at := none })
    ({ users := db.users ++ newUsers, matches' := db.matches' ++ newMatches,
       confirmations := db.confirmations },
     { players := player_ids.length,
       matchCount := (rounds.map List.length).sum, seeded := 1 })

/-! ## Claim C2: status derivation -/

/-- C2: for every match, the derived status is `confirmed` iff both confirmed
score fields are non-null; `disputed` iff the match is not confirmed and at
least 2 distinct score-pair values have been submitted among its
confirmation rows; and `pending` otherwise. -/
theorem match_status_spec (m : MatchRow) (confs : List ConfRow) :
    (match_status m (distinct_confirmations confs m.id) = MatchStatus.confirmed ↔
      m.confirmed_score1.isSome = true ∧ m.confirmed_score2.isSome = true) ∧
    (match_status m (distinct_confirmations confs m.id) = MatchStatus.disputed ↔
      ¬(m.confirmed_score1.isSome = true ∧ m.confirmed_score2.isSome = true) ∧
      2 ≤ (((confs.filter (fun c => c.match_id == m.id)).map
        (fun c => (c.score1, c.score2))).dedup).length) ∧
    (match_status m (distinct_confirmations confs m.id) = MatchStatus.pending ↔
      ¬(m.confirmed_score1.isSome = true ∧ m.confirmed_score2.isSome = true) ∧
      (((confs.filter (fun c => c.match_id == m.id)).map
        (fun c => (c.score1, c.score2))).dedup).length < 2) := by
  unfold match_status distinct_confirmations
  cases h1 : m.confirmed_score1.isSome <;> cases h2 : m.confirmed_score2.isSome <;>
    by_cases hd : 1 < (((confs.filter (fun c => c.match_id == m.id)).map
      (fun c => (c.score1, c.score2))).dedup).length <;>
    simp [h1, h2, hd] <;> omega

/-! ## Claim C1: the consensus check -/

/-- C1: the consensus check is a pure function of a match's confirmation
rows: if the match already has both confirmed scores it changes nothing; if
fewer than 2 confirmation rows exist it changes nothing; otherwise it
compares the score pair of the confirmation ranked first by player id (the
head of the `ORDER BY player_id` list) against every other confirmation,
and exactly when all of them match it sets the match's confirmed scores to
that pair and stamps the confirmation time, else it leaves the match
unconfirmed. -/
theorem consensus_check_spec (m : MatchRow) (confs : List ConfRow) (now : String) :
    ((m.confirmed_score1.isSome = true ∧ m.confirmed_score2.isSome = true) →
      _confirm_scores_if_consensus m confs now = m) ∧
    (¬(m.confirmed_score1.isSome = true ∧ m.confirmed_score2.isSome = true) →
      confs.length < 2 → _confirm_scores_if_consensus m confs now = m) ∧
    (∀ first rest, ¬(m.confirmed_score1.isSome = true ∧ m.confirmed_score2.isSome = true) →
      sortByPlayerId confs = first :: rest → rest ≠ [] →
      ((_confirm_scores_if_consensus m confs now =
          { m with confirmed_score1 := some first.score1,
                   confirmed_score2 := some first.score2,
                   confirmed_at := some now } ↔
        ∀ c ∈ rest, c.score1 = first.score1 ∧ c.score2 = first.score2) ∧
      (¬(∀ c ∈ rest, c.score1 = first.score1 ∧ c.score2 = first.score2) →
        _confirm_scores_if_consensus m confs now = m))) := by
  have hb : ¬(m.confirmed_score1.isSome = true ∧ m.confirmed_score2.isSome = true) →
      (m.confirmed_score1.isSome && m.confirmed_score2.isSome) = false := by
    intro h1
    cases h : m.confirmed_score1.isSome <;> cases h2 : m.confirmed_score2.isSome <;>
      simp_all
  refine ⟨?_, ?_, ?_⟩
  · intro h
    unfold _confirm_scores_if_consensus
    rw [if_pos (by simp [h.1, h.2])]
  · intro h1 hlen
    unfold _confirm_scores_if_consensus
    rw [hb h1]
    have hlen' : (sortByPlayerId confs).length < 2 := by
      have := (List.perm_insertionSort
        (fun a b => a.player_id ≤ b.player_id) confs).length_eq
      unfold sortByPlayerId
      omega
    simp only [Bool.false_eq_true, if_false, if_pos hlen']
  · intro first rest h1 hsort hne
    have hlen' : ¬(first :: rest).length < 2 := by
      cases rest with
      | nil => exact absurd rfl hne
      | cons c cs => simp
    have hsome : m.confirmed_score1.isSome = false ∨ m.confirmed_score2.isSome = false := by
      cases h : m.confirmed_score1.isSome <;> cases h2 : m.confirmed_score2.isSome <;>
        simp_all
    have key : _confirm_scores_if_consensus m confs now =
        (if rest.all (fun row => row.score1 == first.score1 && row.score2 == first.score2) then
          { m with confirmed_score1 := some first.score1,
                   confirmed_score2 := some first.score2,
                   confirmed_at := some now }
        else m) := by
      unfold _confirm_scores_if_consensus
      rw [hb h1, hsort]
      simp only [Bool.false_eq_true, if_false, if_neg hlen']
    constructor
    · constructor
      · intro heq
        by_cases hall : rest.all (fun row => row.score1 == first.score1 &&
            row.score2 == first.score2) = true
        · intro c hc
          have := List.all_eq_true.mp hall c hc
          simp only [Bool.and_eq_true, beq_iff_eq] at this
          exact this
        · rw [key, if_neg hall] at heq
          -- `heq : m' = m` where the left side has both scores set: impossible
          rcases hsome with h | h
          · have : m.confirmed_score1 = some first.score1 := congrArg MatchRow.confirmed_score1 heq
            rw [this] at h ; simp at h
          · have : m.confirmed_score2 = some first.score2 := congrArg MatchRow.confirmed_score2 heq
            rw [this] at h ; simp at h
      · intro hall
        rw [key, if_pos ?_]
        exact List.all_eq_true.mpr (fun c hc => by
          have := hall c hc
          simp [this.1, this.2])
    · intro hnall
      rw [key, if_neg ?_]
      intro hall
      exact hnall (fun c hc => by
        have := List.all_eq_true.mp hall c hc
        simp only [Bool.and_eq_true, beq_iff_eq] at this
        exact this)

/-- Witness for `consensus_check_spec`: two agreeing confirmations confirm
the match with the agreed pair and timestamp. -/
theorem consensus_check_spec_witness :
    _confirm_scores_if_consensus
      { id := 1, round_number := 1, table_number := 1, player1_id := 10, player2_id := 20,
        confirmed_score1 := none, confirmed_score2 := none, confirmed_at := none }
      [{ match_id := 1, player_id := 20, score1 := 2, score2 := 1,
         created_at := "t1", updated_at := "t1" },
       { match_id := 1, player_id := 10, score1 := 2, score2 := 1,
         created_at := "t0", updated_at := "t0" }] "t2" =
      { id := 1, round_number := 1, table_number := 1, player1_id := 10, player2_id := 20,
        confirmed_score1 := some 2, confirmed_score2 := some 1,
        confirmed_at := some "t2" } := by
  have h := (consensus_check_spec
    { id := 1, round_number := 1, table_number := 1, player1_id := 10, player2_id := 20,
      confirmed_score1 := none, confirmed_score2 := none, confirmed_at := none }
    [{ match_id := 1, player_id := 20, score1 := 2, score2 := 1,
       created_at := "t1", updated_at := "t1" },
     { match_id := 1, player_id := 10, score1 := 2, score2 := 1,
       created_at := "t0", updated_at := "t0" }] "t2").2.2
    { match_id := 1, player_id := 10, score1 := 2, score2 := 1,
      created_at := "t0", updated_at := "t0" }
    [{ match_id := 1, player_id := 20, score1 := 2, score2 := 1,
       created_at := "t1", updated_at := "t1" }]
    (by simp) (by decide) (by decide)
  exact h.1.mpr (by decide)

/-! ## Helper lemmas for the store-level claims -/

/-- A successful `find?` on a list with `Nodup` ids pins down every row
carrying that id (the `matches.id` PRIMARY KEY). -/
lemma find_by_id_unique {l : List MatchRow} {k : Nat} {m : MatchRow}
    (hnd : (l.map (fun mm => mm.id)).Nodup)
    (hfind : l.find? (fun mm => mm.id == k) = some m) :
    ∀ mm ∈ l, mm.id = k → mm = m := by
  intro mm hmm hid
  have hmem : m ∈ l := List.mem_of_find?_eq_some hfind
  have hmk : m.id = k := by
    have := List.find?_some hfind
    simpa using this
  exact List.inj_on_of_nodup_map hnd hmm hmem (by rw [hid, hmk])

lemma countP_map_of_pred_invariant {α : Type} (l : List α) (g : α → α) (p : α → Bool)
    (h : ∀ a, p (g a) = p a) : (l.map g).countP p = l.countP p := by
  induction l with
  | nil => rfl
  | cons a l ih => simp [List.countP_cons, ih, h a]

lemma filter_not_map_of_fix {α : Type} (l : List α) (g : α → α) (p : α → Bool)
    (hfix : ∀ a, p a = false → g a = a) (hkey : ∀ a, p (g a) = p a) :
    (l.map g).filter (fun a => !p a) = l.filter (fun a => !p a) := by
  induction l with
  | nil => rfl
  | cons a l ih =>
    cases hp : p a with
    | false =>
      have h1 : p (g a) = false := by rw [hkey a, hp]
      simp [List.filter_cons, hp, h1, hfix a hp, ih]
    | true =>
      have h1 : p (g a) = true := by rw [hkey a, hp]
      simp [List.filter_cons, hp, h1, ih]

/-- The db-level consensus check never touches the confirmation store. -/
lemma consensus_db_confirmations (db : DB) (mid : Nat) (now : String) :
    (_confirm_scores_if_consensus_db db mid now).confirmations = db.confirmations := by
  unfold _confirm_scores_if_consensus_db
  cases db.matches'.find? (fun m => m.id == mid) <;> rfl

/-- The db-level consensus check never touches the users table. -/
lemma consensus_db_users (db : DB) (mid : Nat) (now : String) :
    (_confirm_scores_if_consensus_db db mid now).users = db.users := by
  unfold _confirm_scores_if_consensus_db
  cases db.matches'.find? (fun m => m.id == mid) <;> rfl

/-! ## Claim C8: confirmed scores are write-once -/

/-- C8: once a match's two confirmed score fields are both non-null, no
operation changes them: the consensus check returns the row unchanged (both
at the row and at the store level), and a confirmation submission against a
confirmed match fails — with `Conflict` when the principal is an eligible
participant — before any write (every failure of `confirm_match_score`
carries no state). -/
theorem confirmed_immutable_spec (db : DB) (mid : Nat) (m : MatchRow)
    (hnd : (db.matches'.map (fun mm => mm.id)).Nodup)
    (hfind : db.matches'.find? (fun mm => mm.id == mid) = some m)
    (hc1 : m.confirmed_score1.isSome = true) (hc2 : m.confirmed_score2.isSome = true) :
    (∀ confs now, _confirm_scores_if_consensus m confs now = m) ∧
    (∀ now, _confirm_scores_if_consensus_db db mid now = db) ∧
    (∀ user s1 s2 now, user.role = Role.player →
      (user.id = m.player1_id ∨ user.id = m.player2_id) →
      confirm_match_score db user mid s1 s2 now = Except.error ApiErr.conflict) ∧
    (∀ user s1 s2 now, ∃ e, confirm_match_score db user mid s1 s2 now = Except.error e) := by
  have hrow : ∀ confs now, _confirm_scores_if_consensus m confs now = m := by
    intro confs now
    unfold _confirm_scores_if_consensus
    rw [if_pos (by simp [hc1, hc2])]
  refine ⟨hrow, ?_, ?_, ?_⟩
  · intro now
    unfold _confirm_scores_if_consensus_db
    rw [hfind]
    simp only [hrow]
    have : db.matches'.map (fun mm => if mm.id == mid then m else mm) = db.matches' := by
      have hmapid : db.matches'.map (fun mm => if mm.id == mid then m else mm) =
          db.matches'.map id := by
        apply List.map_congr_left
        intro mm hmm
        by_cases h : mm.id = mid
        · simp only [h, beq_self_eq_true, if_true, id]
          exact (find_by_id_unique hnd hfind mm hmm h).symm
        · simp [h]
      rw [hmapid, List.map_id]
    rw [this]
  · intro user s1 s2 now hrole hpart
    unfold confirm_match_score
    rw [if_neg (by simp [hrole]), hfind]
    simp only
    rw [if_neg (by tauto), if_pos (by simp [hc1, hc2])]
  · intro user s1 s2 now
    by_cases hrole : user.role = Role.player
    · by_cases hpart : user.id = m.player1_id ∨ user.id = m.player2_id
      · exact ⟨ApiErr.conflict, by
          unfold confirm_match_score
          rw [if_neg (by simp [hrole]), hfind]
          simp only
          rw [if_neg (by tauto), if_pos (by simp [hc1, hc2])]⟩
      · exact ⟨ApiErr.forbidden, by
          unfold confirm_match_score
          rw [if_neg (by simp [hrole]), hfind]
          simp only
          rw [if_pos (by tauto)]⟩
    · exact ⟨ApiErr.forbidden, by
        unfold confirm_match_score
        rw [if_pos hrole]⟩

/-- A concrete already-confirmed match row, used by witnesses. -/
def sampleConfirmedMatch : MatchRow :=
  { id := 5, round_number := 1, table_number := 1, player1_id := 10, player2_id := 20,
    confirmed_score1 := some 3, confirmed_score2 := some 2, confirmed_at := some "t" }

/-- A concrete store holding only `sampleConfirmedMatch`. -/
def sampleConfirmedDB : DB :=
  { users := [], matches' := [sampleConfirmedMatch], confirmations := [] }

/-- A concrete player principal assigned to `sampleConfirmedMatch`. -/
def samplePlayer10 : UserDto :=
  { id := 10, handle := "a", display_name := "A", role := Role.player }

/-- A concrete pending match row (no confirmed scores yet). -/
def samplePendingMatch : MatchRow :=
  { id := 5, round_number := 1, table_number := 1, player1_id := 10, player2_id := 20,
    confirmed_score1 := none, confirmed_score2 := none, confirmed_at := none }

/-- A concrete confirmation row already submitted by player 10 for match 5. -/
def sampleConf10 : ConfRow :=
  { match_id := 5, player_id := 10, score1 := 3, score2 := 2,
    created_at := "t0", updated_at := "t0" }

/-- A concrete player-role user row with id 10. -/
def sampleUser10 : UserRow :=
  { id := 10, handle := "a", display_name := "A", password_hash := "h", role := Role.player }

/-- A concrete player-role user row with id 20. -/
def sampleUser20 : UserRow :=
  { id := 20, handle := "b", display_name := "B", password_hash := "h", role := Role.player }

/-- Witness for `confirmed_immutable_spec` at a concrete confirmed match. -/
theorem confirmed_immutable_spec_witness :
    confirm_match_score sampleConfirmedDB samplePlayer10 5 7 7 "t2" =
      Except.error ApiErr.conflict := by
  exact (confirmed_immutable_spec sampleConfirmedDB 5 sampleConfirmedMatch
    (by decide) (by decide) (by decide) (by decide)).2.2.1
    samplePlayer10 7 7 "t2" (by decide) (by decide)

/-! ## Claim C7: the submit-confirmation endpoint -/

/-- C7: `submitConfirmation` fails `Forbidden` when the principal's role is
not player, and — for a known match — when the principal is not one of the
match's two participants; fails `NotFound` when the match id is unknown
(and the role gate passed); fails `Conflict` when the match already has
both confirmed scores; and on success upserts the single (match, player)
confirmation row — a resubmission overwrites that row's scores and never
creates a second row, all other rows are untouched — and then runs the
consensus check for the match. -/
theorem confirm_endpoint_spec (db : DB) (user : UserDto) (mid s1 s2 : Nat) (now : String) :
    (user.role ≠ Role.player →
      confirm_match_score db user mid s1 s2 now = Except.error ApiErr.forbidden) ∧
    (user.role = Role.player → db.matches'.find? (fun mm => mm.id == mid) = none →
      confirm_match_score db user mid s1 s2 now = Except.error ApiErr.notFound) ∧
    (∀ mrow, user.role = Role.player →
      db.matches'.find? (fun mm => mm.id == mid) = some mrow →
      ((user.id ≠ mrow.player1_id ∧ user.id ≠ mrow.player2_id) →
        confirm_match_score db user mid s1 s2 now = Except.error ApiErr.forbidden) ∧
      (¬(user.id ≠ mrow.player1_id ∧ user.id ≠ mrow.player2_id) →
        mrow.confirmed_score1.isSome = true → mrow.confirmed_score2.isSome = true →
        confirm_match_score db user mid s1 s2 now = Except.error ApiErr.conflict) ∧
      (¬(user.id ≠ mrow.player1_id ∧ user.id ≠ mrow.player2_id) →
        ¬(mrow.confirmed_score1.isSome = true ∧ mrow.confirmed_score2.isSome = true) →
        ∃ db2, confirm_match_score db user mid s1 s2 now = Except.ok db2 ∧
          db2 = _confirm_scores_if_consensus_db
            { db with confirmations :=
                upsert_confirmation db.confirmations mid user.id s1 s2 now } mid now ∧
          (db.confirmations.countP
              (fun c => c.match_id == mid && c.player_id == user.id) ≤ 1 →
            db2.confirmations.countP
              (fun c => c.match_id == mid && c.player_id == user.id) = 1) ∧
          (∀ c ∈ db2.confirmations,
            (c.match_id == mid && c.player_id == user.id) = true →
            c.score1 = s1 ∧ c.score2 = s2) ∧
          db2.confirmations.filter
              (fun c => !(c.match_id == mid && c.player_id == user.id)) =
            db.confirmations.filter
              (fun c => !(c.match_id == mid && c.player_id == user.id)))) := by
  refine ⟨?_, ?_, ?_⟩
  · intro hrole
    unfold confirm_match_score
    rw [if_pos hrole]
  · intro hrole hfind
    unfold confirm_match_score
    rw [if_neg (by simp [hrole]), hfind]
  · intro mrow hrole hfind
    refine ⟨?_, ?_, ?_⟩
    · intro hnp
      unfold confirm_match_score
      rw [if_neg (by simp [hrole]), hfind]
      simp only
      rw [if_pos hnp]
    · intro hp hc1 hc2
      unfold confirm_match_score
      rw [if_neg (by simp [hrole]), hfind]
      simp only
      rw [if_neg hp, if_pos (by simp [hc1, hc2])]
    · intro hp hnc
      have hb : (mrow.confirmed_score1.isSome && mrow.confirmed_score2.isSome) = false := by
        cases h : mrow.confirmed_score1.isSome <;> cases h2 : mrow.confirmed_score2.isSome <;>
          simp_all
      refine ⟨_, ?_, rfl, ?_, ?_, ?_⟩
      · unfold confirm_match_score
        rw [if_neg (by simp [hrole]), hfind]
        simp only
        rw [if_neg hp, hb]
        simp only [Bool.false_eq_true, if_false]
      · -- the upserted store holds exactly one row for the (match, player) key
        intro hle
        rw [consensus_db_confirmations]
        unfold upsert_confirmation
        by_cases hany : db.confirmations.any
            (fun c => c.match_id == mid && c.player_id == user.id) = true
        · rw [if_pos hany]
          rw [countP_map_of_pred_invariant _ _ _ ?_]
          · have hpos : 0 < db.confirmations.countP
                (fun c => c.match_id == mid && c.player_id == user.id) := by
              rw [List.countP_pos_iff]
              exact List.any_eq_true.mp hany
            omega
          · intro c
            by_cases hc : (c.match_id == mid && c.player_id == user.id) = true
            · rw [if_pos hc]
            · rw [if_neg hc]
        · rw [if_neg hany]
          rw [List.countP_append]
          have h0 : db.confirmations.countP
              (fun c => c.match_id == mid && c.player_id == user.id) = 0 := by
            rw [List.countP_eq_zero]
            intro c hc hpc
            exact hany (List.any_eq_true.mpr ⟨c, hc, hpc⟩)
          simp [h0]
      · -- every row matching the key carries the submitted scores
        intro c hc hkey
        rw [consensus_db_confirmations] at hc
        unfold upsert_confirmation at hc
        by_cases hany : db.confirmations.any
            (fun c => c.match_id == mid && c.player_id == user.id) = true
        · rw [if_pos hany] at hc
          obtain ⟨c0, _, hc0⟩ := List.mem_map.mp hc
          by_cases hk0 : (c0.match_id == mid && c0.player_id == user.id) = true
          · rw [if_pos hk0] at hc0
            rw [← hc0]
            exact ⟨rfl, rfl⟩
          · rw [if_neg hk0] at hc0
            rw [← hc0] at hkey
            exact absurd hkey hk0
        · rw [if_neg hany] at hc
          rcases List.mem_append.mp hc with hmem | hmem
          · exact absurd (List.any_eq_true.mpr ⟨c, hmem, hkey⟩) hany
          · rcases List.mem_singleton.mp hmem with rfl
            exact ⟨rfl, rfl⟩
      · -- all other rows are untouched
        rw [consensus_db_confirmations]
        unfold upsert_confirmation
        by_cases hany : db.confirmations.any
            (fun c => c.match_id == mid && c.player_id == user.id) = true
        · rw [if_pos hany]
          refine filter_not_map_of_fix _ _ _ ?_ ?_
          · intro c hc
            rw [if_neg (by simp [hc])]
          · intro c
            by_cases hc : (c.match_id == mid && c.player_id == user.id) = true
            · rw [if_pos hc]
            · rw [if_neg hc]
        · rw [if_neg hany]
          rw [List.filter_append]
          simp [List.filter_cons]

/-- Witness for `confirm_endpoint_spec`: a resubmission by player 10
overwrites its own previous report and yields a single row for the key. -/
theorem confirm_endpoint_spec_witness :
    ∃ db2, confirm_match_score
        { users := [], matches' := [samplePendingMatch],
          confirmations := [sampleConf10] } samplePlayer10 5 4 2 "t2" =
        Except.ok db2 ∧
      db2.confirmations.countP (fun c => c.match_id == 5 && c.player_id == 10) = 1 := by
  obtain ⟨db2, hok, -, hcount, -, -⟩ :=
    ((confirm_endpoint_spec
      { users := [], matches' := [samplePendingMatch], confirmations := [sampleConf10] }
      samplePlayer10 5 4 2 "t2").2.2 samplePendingMatch (by decide) (by decide)).2.2
      (by decide) (by decide)
  exact ⟨db2, hok, hcount (by decide)⟩

/-! ## Claim C9: seeding is a no-op when matches exist -/

/-- C9: invoking fixture setup without force in any (foreign-key-consistent)
state where at least one match row exists leaves the stored users, matches,
and confirmations unchanged and creates nothing: the routine returns the
current counts with `seeded = 0`.  (A match row implies a user row via the
`player1_id` foreign key, which is what the routine's `users`-count guard
tests.) -/
theorem seed_noop_spec (db : DB) (hash : String → String) (firstUserId firstMatchId : Nat)
    (hne : db.matches' ≠ [])
    (hfk : ∀ m ∈ db.matches', ∃ u ∈ db.users, u.id = m.player1_id) :
    _seed_demo_data db false hash firstUserId firstMatchId =
      (db, { players := (db.users.filter (fun u => u.role == Role.player)).length,
             matchCount := db.matches'.length, seeded := 0 }) := by
  have husers : 0 < db.users.length := by
    cases hm : db.matches' with
    | nil => exact absurd hm hne
    | cons m ms =>
      obtain ⟨u, hu, -⟩ := hfk m (by rw [hm]; exact List.mem_cons_self m ms)
      exact List.length_pos.mpr (List.ne_nil_of_mem hu)
  unfold _seed_demo_data
  simp only [if_neg (Bool.false_ne_true), if_pos husers]

/-- Witness for `seed_noop_spec` on a one-match store. -/
theorem seed_noop_spec_witness :
    _seed_demo_data
        { users := [sampleUser10], matches' := [samplePendingMatch], confirmations := [] }
        false (fun s => s) 1 1 =
      ({ users := [sampleUser10], matches' := [samplePendingMatch], confirmations := [] },
       { players := 1, matchCount := 1, seeded := 0 }) := by
  exact seed_noop_spec
    { users := [sampleUser10], matches' := [samplePendingMatch], confirmations := [] }
    (fun s => s) 1 1 (by decide)
    (fun m hm => ⟨sampleUser10, List.mem_cons_self _ _, by
      rcases List.mem_singleton.mp hm with rfl
      rfl⟩)

/-! ## Claim C10: no round filter means zero round points -/

/-- Folding matches with no round filter never touches `round_points`. -/
lemma foldl_applyMatch_none_round_points (ms : List MatchRow) (acc : List StatsRow)
    (h : ∀ s ∈ acc, s.round_points = 0) :
    ∀ s ∈ ms.foldl (applyMatch none) acc, s.round_points = 0 := by
  induction ms generalizing acc with
  | nil => exact h
  | cons m ms ih =>
    refine ih _ ?_
    intro s hs
    unfold applyMatch at hs
    rcases hm1 : m.confirmed_score1 with _ | s1 <;> rcases hm2 : m.confirmed_score2 with _ | s2 <;>
      rw [hm1, hm2] at hs
    · exact h s hs
    · exact h s hs
    · exact h s hs
    · obtain ⟨s0, hs0, rfl⟩ := List.mem_map.mp hs
      have hz := h s0 hs0
      unfold applyMatchToRow
      simp only
      split_ifs <;> simp_all

/-- C10: when standings are computed without a round filter, every returned
row has `round_points = 0`, regardless of how many matches are confirmed. -/
theorem no_filter_round_points_zero (users : List UserRow) (matchRows : List MatchRow)
    (row : StandingRowDto) (hmem : row ∈ _standings users matchRows none) :
    row.round_points = 0 := by
  unfold _standings at hmem
  simp only at hmem
  obtain ⟨pr, hpr, hrow⟩ := List.mem_map.mp hmem
  have hsnd : pr.2 ∈ ((matchRows.filter (standingsMatchFilter none)).insertionSort
      (fun a b => a.round_number < b.round_number ∨
        (a.round_number = b.round_number ∧ a.id ≤ b.id))).foldl (applyMatch none)
      (((users.filter (fun u => u.role == Role.player)).insertionSort
        (fun a b => a.display_name ≤ b.display_name)).map initStats) := by
    have h1 : pr.2 ∈ (((matchRows.filter (standingsMatchFilter none)).insertionSort
        (fun a b => a.round_number < b.round_number ∨
          (a.round_number = b.round_number ∧ a.id ≤ b.id))).foldl (applyMatch none)
        (((users.filter (fun u => u.role == Role.player)).insertionSort
          (fun a b => a.display_name ≤ b.display_name)).map initStats)).insertionSort
          standingsLE := by
      have h := List.mem_enum_iff_getElem?.mp hpr
      obtain ⟨hlt, heq⟩ := List.getElem?_eq_some_iff.mp h
      exact heq ▸ List.getElem_mem hlt
    exact (List.perm_insertionSort standingsLE _).mem_iff.mp h1
  have hz : pr.2.round_points = 0 := by
    refine foldl_applyMatch_none_round_points _ _ ?_ _ hsnd
    intro s hs
    obtain ⟨u, -, rfl⟩ := List.mem_map.mp hs
    rfl
  rw [← hrow]
  exact hz

/-- Witness for `no_filter_round_points_zero` on a concrete store. -/
theorem no_filter_round_points_zero_witness :
    ∃ row ∈ _standings [sampleUser10] [] none, row.round_points = 0 := by
  have h : _standings [sampleUser10] [] none ≠ [] := by decide
  cases he : _standings [sampleUser10] [] none with
  | nil => exact absurd he h
  | cons r rs =>
    exact ⟨r, List.mem_cons_self _ _,
      no_filter_round_points_zero [sampleUser10] [] r (by rw [he]; exact List.mem_cons_self _ _)⟩

/-! ## Standings characterization (for C3/C4) -/

/-- Both confirmed scores present (the reach condition of the standings
fold). -/
def hasScores (m : MatchRow) : Bool :=
  m.confirmed_score1.isSome && m.confirmed_score2.isSome

/-- The confirmed first/second scores, defaulting to 0 (only consulted when
`hasScores`). -/
def s1of (m : MatchRow) : Nat := m.confirmed_score1.getD 0

def s2of (m : MatchRow) : Nat := m.confirmed_score2.getD 0

/-- Whether the match contributes to the given player's row. -/
def involves (uid : Nat) (m : MatchRow) : Bool :=
  hasScores m && (m.player1_id == uid || m.player2_id == uid)

/-- The goals-for contribution of one match to one player's row. -/
def gfContrib (uid : Nat) (m : MatchRow) : Nat :=
  if hasScores m then
    (if m.player1_id = uid then s1of m else if m.player2_id = uid then s2of m else 0)
  else 0

/-- The goals-against contribution of one match to one player's row. -/
def gaContrib (uid : Nat) (m : MatchRow) : Nat :=
  if hasScores m then
    (if m.player1_id = uid then s2of m else if m.player2_id = uid then s1of m else 0)
  else 0

/-- The points contribution of one match to one player's row. -/
def ptsContrib (uid : Nat) (m : MatchRow) : Nat :=
  if hasScores m then
    (if m.player1_id = uid then (_match_points (s1of m) (s2of m)).1
     else if m.player2_id = uid then (_match_points (s1of m) (s2of m)).2 else 0)
  else 0

/-- The round-points contribution of one match to one player's row. -/
def rpContrib (up : Option Nat) (uid : Nat) (m : MatchRow) : Nat :=
  match up with
  | some u => if m.round_number = u then ptsContrib uid m else 0
  | none => 0

/-- One match counts as a win for the given player. -/
def winPred (uid : Nat) (m : MatchRow) : Bool :=
  hasScores m &&
    (if m.player1_id = uid then s1of m > s2of m
     else if m.player2_id = uid then s2of m > s1of m else False)

/-- One match counts as a loss for the given player. -/
def lossPred (uid : Nat) (m : MatchRow) : Bool :=
  hasScores m &&
    (if m.player1_id = uid then s2of m > s1of m
     else if m.player2_id = uid then s1of m > s2of m else False)

/-- One match counts as a draw for the given player. -/
def drawPred (uid : Nat) (m : MatchRow) : Bool :=
  hasScores m && (m.player1_id == uid || m.player2_id == uid) && (s1of m == s2of m)

/-- The per-entry view of one iteration of the standings fold. -/
def stepRow (up : Option Nat) (s : StatsRow) (m : MatchRow) : StatsRow :=
  match m.confirmed_score1, m.confirmed_score2 with
  | some s1, some s2 => applyMatchToRow up m s1 s2 s
  | _, _ => s

lemma applyMatch_eq_map (up : Option Nat) (acc : List StatsRow) (m : MatchRow) :
    applyMatch up acc m = acc.map (fun s => stepRow up s m) := by
  unfold applyMatch stepRow
  rcases m.confirmed_score1 with _ | s1 <;> rcases m.confirmed_score2 with _ | s2 <;> simp

/-- The standings fold distributes over the per-player entries. -/
lemma foldl_applyMatch_map (up : Option Nat) (ms : List MatchRow)
    (roster : List UserRow) (G : UserRow → StatsRow) :
    ms.foldl (applyMatch up) (roster.map G) =
      roster.map (fun u => ms.foldl (stepRow up) (G u)) := by
  induction ms generalizing G with
  | nil => rfl
  | cons m tl ih =>
    rw [List.foldl_cons, applyMatch_eq_map, List.map_map, ih]
    rfl

/-- Reduction of `stepRow` when both confirmed scores are present. -/
lemma stepRow_some (up : Option Nat) (m : MatchRow) (s1 s2 : Nat) (s : StatsRow)
    (hm1 : m.confirmed_score1 = some s1) (hm2 : m.confirmed_score2 = some s2) :
    stepRow up s m = applyMatchToRow up m s1 s2 s := by
  unfold stepRow
  rw [hm1, hm2]

/-- Reduction of `stepRow` when a confirmed score is absent. -/
lemma stepRow_none (up : Option Nat) (m : MatchRow) (s : StatsRow)
    (h : m.confirmed_score1 = none ∨ m.confirmed_score2 = none) :
    stepRow up s m = s := by
  unfold stepRow
  rcases h with h | h
  · rw [h]
  · rw [h]
    rcases m.confirmed_score1 with _ | s1 <;> rfl

/-- All per-field effects of one `applyMatchToRow` application, expressed by
the contribution functions. -/
lemma applyMatchToRow_fields (up : Option Nat) (m : MatchRow) (s1 s2 : Nat) (s : StatsRow)
    (hm1 : m.confirmed_score1 = some s1) (hm2 : m.confirmed_score2 = some s2) :
    (applyMatchToRow up m s1 s2 s).player_id = s.player_id ∧
    (applyMatchToRow up m s1 s2 s).handle = s.handle ∧
    (applyMatchToRow up m s1 s2 s).display_name = s.display_name ∧
    (applyMatchToRow up m s1 s2 s).played =
      s.played + (if involves s.player_id m then 1 else 0) ∧
    (applyMatchToRow up m s1 s2 s).goals_for = s.goals_for + gfContrib s.player_id m ∧
    (applyMatchToRow up m s1 s2 s).goals_against =
      s.goals_against + gaContrib s.player_id m ∧
    (applyMatchToRow up m s1 s2 s).points = s.points + ptsContrib s.player_id m ∧
    (applyMatchToRow up m s1 s2 s).round_points =
      s.round_points + rpContrib up s.player_id m ∧
    (applyMatchToRow up m s1 s2 s).wins =
      s.wins + (if winPred s.player_id m then 1 else 0) ∧
    (applyMatchToRow up m s1 s2 s).draws =
      s.draws + (if drawPred s.player_id m then 1 else 0) ∧
    (applyMatchToRow up m s1 s2 s).losses =
      s.losses + (if lossPred s.player_id m then 1 else 0) := by
  have hs1 : s1of m = s1 := by simp [s1of, hm1]
  have hs2 : s2of m = s2 := by simp [s2of, hm2]
  have hhs : hasScores m = true := by simp [hasScores, hm1, hm2]
  rcases hmp : _match_points s1 s2 with ⟨P1, P2⟩
  unfold applyMatchToRow
  rw [hmp]
  dsimp only
  by_cases hp1 : s.player_id = m.player1_id
  · have h1 : m.player1_id = s.player_id := hp1.symm
    rw [if_pos hp1]
    refine ⟨rfl, rfl, rfl, ?_, ?_, ?_, ?_, ?_, ?_, ?_, ?_⟩
    · have : involves s.player_id m = true := by simp [involves, hhs, h1]
      simp [this]
    · simp [gfContrib, hhs, h1, hs1]
    · simp [gaContrib, hhs, h1, hs2]
    · simp [ptsContrib, hhs, h1, hs1, hs2, hmp]
    · rcases up with _ | u
      · simp [rpContrib]
      · simp only [rpContrib, ptsContrib, hhs, if_pos rfl, h1, if_true, hs1, hs2, hmp]
        by_cases hr : m.round_number = u <;> simp [hr]
    · by_cases hw : s1 > s2 <;>
        simp [winPred, hhs, h1, hs1, hs2, hw]
    · by_cases hd : s1 = s2 <;>
        simp [drawPred, hhs, h1, hs1, hs2, hd]
    · by_cases hl : s2 > s1 <;>
        simp [lossPred, hhs, h1, hs1, hs2, hl]
  · have h1 : ¬(m.player1_id = s.player_id) := fun h => hp1 h.symm
    by_cases hp2 : s.player_id = m.player2_id
    · have h2 : m.player2_id = s.player_id := hp2.symm
      rw [if_neg hp1, if_pos hp2]
      refine ⟨rfl, rfl, rfl, ?_, ?_, ?_, ?_, ?_, ?_, ?_, ?_⟩
      · have : involves s.player_id m = true := by simp [involves, hhs, h2]
        simp [this]
      · simp [gfContrib, hhs, h1, h2, hs2]
      · simp [gaContrib, hhs, h1, h2, hs1]
      · simp [ptsContrib, hhs, h1, h2, hs1, hs2, hmp]
      · rcases up with _ | u
        · simp [rpContrib]
        · simp only [rpContrib, ptsContrib, hhs, if_pos rfl, if_true, hs1, hs2, hmp]
          rw [if_neg h1]
          simp only [h2, if_true]
          by_cases hr : m.round_number = u <;> simp [hr]
      · by_cases hw : s2 > s1 <;>
          simp [winPred, hhs, h1, h2, hs1, hs2, hw]
      · by_cases hd : s1 = s2 <;>
          simp [drawPred, hhs, h1, h2, hs1, hs2, hd]
      · by_cases hl : s1 > s2 <;>
          simp [lossPred, hhs, h1, h2, hs1, hs2, hl]
    · have h2 : ¬(m.player2_id = s.player_id) := fun h => hp2 h.symm
      rw [if_neg hp1, if_neg hp2]
      refine ⟨rfl, rfl, rfl, ?_, ?_, ?_, ?_, ?_, ?_, ?_, ?_⟩
      · have : involves s.player_id m = false := by simp [involves, hhs, h1, h2]
        rw [this]
        simp
      · simp [gfContrib, hhs, h1, h2]
      · simp [gaContrib, hhs, h1, h2]
      · simp [ptsContrib, hhs, h1, h2]
      · rcases up with _ | u
        · simp [rpContrib]
        · simp [rpContrib, ptsContrib, hhs, h1, h2]
      · simp [winPred, hhs, h1, h2]
      · simp [drawPred, hhs, h1, h2]
      · simp [lossPred, hhs, h1, h2]

/-- One `stepRow` application, expressed by the contribution functions. -/
lemma stepRow_fields (up : Option Nat) (m : MatchRow) (s : StatsRow) :
    (stepRow up s m).player_id = s.player_id ∧
    (stepRow up s m).handle = s.handle ∧
    (stepRow up s m).display_name = s.display_name ∧
    (stepRow up s m).played = s.played + (if involves s.player_id m then 1 else 0) ∧
    (stepRow up s m).goals_for = s.goals_for + gfContrib s.player_id m ∧
    (stepRow up s m).goals_against = s.goals_against + gaContrib s.player_id m ∧
    (stepRow up s m).points = s.points + ptsContrib s.player_id m ∧
    (stepRow up s m).round_points = s.round_points + rpContrib up s.player_id m ∧
    (stepRow up s m).wins = s.wins + (if winPred s.player_id m then 1 else 0) ∧
    (stepRow up s m).draws = s.draws + (if drawPred s.player_id m then 1 else 0) ∧
    (stepRow up s m).losses = s.losses + (if lossPred s.player_id m then 1 else 0) := by
  rcases hm1 : m.confirmed_score1 with _ | s1
  · have hz : stepRow up s m = s := stepRow_none up m s (Or.inl hm1)
    have hhs : hasScores m = false := by simp [hasScores, hm1]
    rw [hz]
    rcases up with _ | u <;>
      simp [involves, gfContrib, gaContrib, ptsContrib, rpContrib, winPred, drawPred,
        lossPred, hhs]
  · rcases hm2 : m.confirmed_score2 with _ | s2
    · have hz : stepRow up s m = s := stepRow_none up m s (Or.inr hm2)
      have hhs : hasScores m = false := by simp [hasScores, hm2]
      rw [hz]
      rcases up with _ | u <;>
        simp [involves, gfContrib, gaContrib, ptsContrib, rpContrib, winPred, drawPred,
          lossPred, hhs]
    · rw [stepRow_some up m s1 s2 s hm1 hm2]
      exact applyMatchToRow_fields up m s1 s2 s hm1 hm2

/-- All fields of the per-player fold in closed form. -/
lemma stepRow_foldl_fields (up : Option Nat) (ms : List MatchRow) (s0 : StatsRow) :
    (ms.foldl (stepRow up) s0).player_id = s0.player_id ∧
    (ms.foldl (stepRow up) s0).handle = s0.handle ∧
    (ms.foldl (stepRow up) s0).display_name = s0.display_name ∧
    (ms.foldl (stepRow up) s0).played = s0.played + ms.countP (involves s0.player_id) ∧
    (ms.foldl (stepRow up) s0).goals_for =
      s0.goals_for + (ms.map (gfContrib s0.player_id)).sum ∧
    (ms.foldl (stepRow up) s0).goals_against =
      s0.goals_against + (ms.map (gaContrib s0.player_id)).sum ∧
    (ms.foldl (stepRow up) s0).points =
      s0.points + (ms.map (ptsContrib s0.player_id)).sum ∧
    (ms.foldl (stepRow up) s0).round_points =
      s0.round_points + (ms.map (rpContrib up s0.player_id)).sum ∧
    (ms.foldl (stepRow up) s0).wins = s0.wins + ms.countP (winPred s0.player_id) ∧
    (ms.foldl (stepRow up) s0).draws = s0.draws + ms.countP (drawPred s0.player_id) ∧
    (ms.foldl (stepRow up) s0).losses = s0.losses + ms.countP (lossPred s0.player_id) := by
  induction ms generalizing s0 with
  | nil => simp
  | cons m tl ih =>
    rw [List.foldl_cons]
    obtain ⟨hpid, hh, hdn, hpl, hgf, hga, hpt, hrp, hw, hd, hl⟩ := stepRow_fields up m s0
    obtain ⟨ipid, ih2, ih3, ipl, igf, iga, ipt, irp, iw, idr, il⟩ := ih (stepRow up s0 m)
    rw [hpid] at ipl igf iga ipt irp iw idr il
    refine ⟨by rw [ipid, hpid], by rw [ih2, hh], by rw [ih3, hdn], ?_, ?_, ?_, ?_, ?_, ?_,
      ?_, ?_⟩
    · rw [ipl, hpl, List.countP_cons]
      by_cases h : involves s0.player_id m <;> simp [h] <;> omega
    · rw [igf, hgf, List.map_cons, List.sum_cons]; omega
    · rw [iga, hga, List.map_cons, List.sum_cons]; omega
    · rw [ipt, hpt, List.map_cons, List.sum_cons]; omega
    · rw [irp, hrp, List.map_cons, List.sum_cons]; omega
    · rw [iw, hw, List.countP_cons]
      by_cases h : winPred s0.player_id m <;> simp [h] <;> omega
    · rw [idr, hd, List.countP_cons]
      by_cases h : drawPred s0.player_id m <;> simp [h] <;> omega
    · rw [il, hl, List.countP_cons]
      by_cases h : lossPred s0.player_id m <;> simp [h] <;> omega

instance : IsTrans StatsRow standingsLE :=
  ⟨by
    intro a b c hab hbc
    unfold standingsLE at hab hbc ⊢
    rcases hab with h1 | ⟨e1, hab⟩
    · rcases hbc with h1' | ⟨e1', hbc⟩
      · exact Or.inl (by omega)
      · exact Or.inl (by omega)
    · rcases hbc with h1' | ⟨e1', hbc⟩
      · exact Or.inl (by omega)
      · refine Or.inr ⟨by omega, ?_⟩
        rcases hab with h2 | ⟨e2, hab⟩
        · rcases hbc with h2' | ⟨e2', hbc⟩
          · exact Or.inl (by omega)
          · exact Or.inl (by omega)
        · rcases hbc with h2' | ⟨e2', hbc⟩
          · exact Or.inl (by omega)
          · refine Or.inr ⟨by omega, ?_⟩
            rcases hab with h3 | ⟨e3, hab⟩
            · rcases hbc with h3' | ⟨e3', hbc⟩
              · exact Or.inl (by omega)
              · exact Or.inl (by omega)
            · rcases hbc with h3' | ⟨e3', hbc⟩
              · exact Or.inl (by omega)
              · exact Or.inr ⟨by omega, le_trans hab hbc⟩⟩

instance : IsTotal StatsRow standingsLE :=
  ⟨by
    intro a b
    unfold standingsLE
    rcases Nat.lt_trichotomy a.points b.points with h | h | h
    · exact Or.inr (Or.inl h)
    · rcases lt_trichotomy ((a.goals_for : Int) - a.goals_against)
        ((b.goals_for : Int) - b.goals_against) with h2 | h2 | h2
      · exact Or.inr (Or.inr ⟨h.symm, Or.inl h2⟩)
      · rcases Nat.lt_trichotomy a.goals_for b.goals_for with h3 | h3 | h3
        · exact Or.inr (Or.inr ⟨h.symm, Or.inr ⟨h2.symm, Or.inl h3⟩⟩)
        · rcases le_total a.display_name.toLower b.display_name.toLower with h4 | h4
          · exact Or.inl (Or.inr ⟨h, Or.inr ⟨h2, Or.inr ⟨h3, h4⟩⟩⟩)
          · exact Or.inr (Or.inr ⟨h.symm, Or.inr ⟨h2.symm, Or.inr ⟨h3.symm, h4⟩⟩⟩)
        · exact Or.inl (Or.inr ⟨h, Or.inr ⟨h2, Or.inl h3⟩⟩)
      · exact Or.inl (Or.inr ⟨h, Or.inl h2⟩)
    · exact Or.inl (Or.inl h)⟩

lemma snd_mem_of_mem_enumFrom {α : Type} :
    ∀ (l : List α) (n : Nat) (x : Nat × α), x ∈ l.enumFrom n → x.2 ∈ l := by
  intro l
  induction l with
  | nil =>
    intro n x h
    simp [List.enumFrom] at h
  | cons a tl ih =>
    intro n x h
    rcases List.mem_cons.mp h with rfl | h
    · exact List.mem_cons_self _ _
    · exact List.mem_cons_of_mem _ (ih (n + 1) x h)

lemma pairwise_enumFrom {α : Type} {R : α → α → Prop} :
    ∀ (l : List α) (n : Nat), l.Pairwise R →
      (l.enumFrom n).Pairwise (fun x y => R x.2 y.2) := by
  intro l
  induction l with
  | nil =>
    intro n _
    exact List.Pairwise.nil
  | cons a tl ih =>
    intro n h
    rcases List.pairwise_cons.mp h with ⟨ha, htl⟩
    exact List.Pairwise.cons (fun y hy => ha y.2 (snd_mem_of_mem_enumFrom tl (n + 1) y hy))
      (ih (n + 1) htl)

lemma map_snd_enumFrom {α β : Type} (g : α → β) :
    ∀ (l : List α) (n : Nat), (l.enumFrom n).map (fun x => g x.2) = l.map g := by
  intro l
  induction l with
  | nil => intro n; rfl
  | cons a tl ih =>
    intro n
    simpa using ih (n + 1)

/-- The ranking relation of §4.4 step 4 expressed on output rows. -/
def dtoRankLE (a b : StandingRowDto) : Prop :=
  b.points < a.points ∨ (a.points = b.points ∧
    (b.goal_difference < a.goal_difference ∨ (a.goal_difference = b.goal_difference ∧
      (b.goals_for < a.goals_for ∨ (a.goals_for = b.goals_for ∧
        a.display_name.toLower ≤ b.display_name.toLower)))))

/-- Ordering, positions, and one-row-per-roster-player for `_standings` (any
round filter). -/
lemma standings_order_spec (users : List UserRow) (ms : List MatchRow) (up : Option Nat) :
    (_standings users ms up).Pairwise dtoRankLE ∧
    (∀ i (hi : i < (_standings users ms up).length),
      ((_standings users ms up).get ⟨i, hi⟩).position = i + 1) ∧
    ((_standings users ms up).map (fun r => r.player_id)).Perm
      ((users.filter (fun u => u.role == Role.player)).map (fun u => u.id)) := by
  unfold _standings
  refine ⟨?_, ?_, ?_⟩
  · rw [List.pairwise_map]
    have hord := List.sorted_insertionSort standingsLE
      (((ms.filter (standingsMatchFilter up)).insertionSort
        (fun a b => a.round_number < b.round_number ∨
          (a.round_number = b.round_number ∧ a.id ≤ b.id))).foldl (applyMatch up)
        (((users.filter (fun u => u.role == Role.player)).insertionSort
          (fun a b => a.display_name ≤ b.display_name)).map initStats))
    have hpe := pairwise_enumFrom _ 0 hord
    rw [List.enum_eq_enumFrom]
    refine hpe.imp ?_
    intro x y hxy
    unfold standingsLE at hxy
    unfold dtoRankLE
    exact hxy
  · intro i hi
    simp only [List.get_eq_getElem, List.getElem_map, List.enum_eq_enumFrom,
      List.getElem_enumFrom]
    simp
  · rw [List.map_map, List.enum_eq_enumFrom]
    rw [show ((fun r => r.player_id) ∘ (fun pr : Nat × StatsRow =>
        ({ position := pr.1 + 1, player_id := pr.2.player_id, handle := pr.2.handle,
           display_name := pr.2.display_name, played := pr.2.played, wins := pr.2.wins,
           draws := pr.2.draws, losses := pr.2.losses, goals_for := pr.2.goals_for,
           goals_against := pr.2.goals_against,
           goal_difference := (pr.2.goals_for : Int) - pr.2.goals_against,
           round_points := pr.2.round_points, points := pr.2.points } : StandingRowDto))) =
        (fun x : Nat × StatsRow => x.2.player_id) from rfl]
    rw [map_snd_enumFrom (fun s : StatsRow => s.player_id) _ 0]
    have hperm1 := (List.perm_insertionSort standingsLE
      (((ms.filter (standingsMatchFilter up)).insertionSort
        (fun a b => a.round_number < b.round_number ∨
          (a.round_number = b.round_number ∧ a.id ≤ b.id))).foldl (applyMatch up)
        (((users.filter (fun u => u.role == Role.player)).insertionSort
          (fun a b => a.display_name ≤ b.display_name)).map initStats))).map
        (fun s => s.player_id)
    refine hperm1.trans ?_
    rw [foldl_applyMatch_map, List.map_map]
    have h2 : ((fun s : StatsRow => s.player_id) ∘ (fun u =>
        ((ms.filter (standingsMatchFilter up)).insertionSort
          (fun a b => a.round_number < b.round_number ∨
            (a.round_number = b.round_number ∧ a.id ≤ b.id))).foldl (stepRow up)
          (initStats u))) = fun u : UserRow => u.id := by
      funext u
      exact (stepRow_foldl_fields up _ (initStats u)).1
    rw [h2]
    exact (List.perm_insertionSort (fun a b : UserRow => a.display_name ≤ b.display_name)
      (users.filter (fun u => u.role == Role.player))).map (fun u => u.id)

/-- Every standings row belongs to a roster player and carries the folded
statistics of the filtered match list, in contribution form. -/
lemma standings_row_spec (users : List UserRow) (ms : List MatchRow) (up : Option Nat)
    (row : StandingRowDto) (hrow : row ∈ _standings users ms up) :
    row.goal_difference = (row.goals_for : Int) - (row.goals_against : Int) ∧
    ∃ u, u ∈ users.filter (fun u => u.role == Role.player) ∧
      row.player_id = u.id ∧ row.handle = u.handle ∧ row.display_name = u.display_name ∧
      row.played = (ms.filter (standingsMatchFilter up)).countP (involves u.id) ∧
      row.goals_for = ((ms.filter (standingsMatchFilter up)).map (gfContrib u.id)).sum ∧
      row.goals_against =
        ((ms.filter (standingsMatchFilter up)).map (gaContrib u.id)).sum ∧
      row.points = ((ms.filter (standingsMatchFilter up)).map (ptsContrib u.id)).sum ∧
      row.round_points =
        ((ms.filter (standingsMatchFilter up)).map (rpContrib up u.id)).sum ∧
      row.wins = (ms.filter (standingsMatchFilter up)).countP (winPred u.id) ∧
      row.draws = (ms.filter (standingsMatchFilter up)).countP (drawPred u.id) ∧
      row.losses = (ms.filter (standingsMatchFilter up)).countP (lossPred u.id) := by
  unfold _standings at hrow
  simp only at hrow
  obtain ⟨pr, hpr, hdto⟩ := List.mem_map.mp hrow
  rw [List.enum_eq_enumFrom] at hpr
  have hmemsort := snd_mem_of_mem_enumFrom _ 0 pr hpr
  have hmemfold := (List.perm_insertionSort standingsLE _).mem_iff.mp hmemsort
  rw [foldl_applyMatch_map] at hmemfold
  obtain ⟨u, humem, hu⟩ := List.mem_map.mp hmemfold
  have huf : u ∈ users.filter (fun u => u.role == Role.player) :=
    (List.perm_insertionSort (fun a b : UserRow => a.display_name ≤ b.display_name)
      _).mem_iff.mp humem
  obtain ⟨fpid, fh, fdn, fpl, fgf, fga, fpt, frp, fw, fd, fl⟩ :=
    stepRow_foldl_fields up ((ms.filter (standingsMatchFilter up)).insertionSort
      (fun a b => a.round_number < b.round_number ∨
        (a.round_number = b.round_number ∧ a.id ≤ b.id))) (initStats u)
  rw [hu] at fpid fh fdn fpl fgf fga fpt frp fw fd fl
  have hpid0 : (initStats u).player_id = u.id := rfl
  rw [hpid0] at fpid fpl fgf fga fpt frp fw fd fl
  have hsp := List.perm_insertionSort
    (fun a b : MatchRow => a.round_number < b.round_number ∨
      (a.round_number = b.round_number ∧ a.id ≤ b.id)) (ms.filter (standingsMatchFilter up))
  constructor
  · rw [← hdto]
  · refine ⟨u, huf, ?_, ?_, ?_, ?_, ?_, ?_, ?_, ?_, ?_, ?_, ?_⟩ <;> rw [← hdto]
    · exact fpid
    · exact fh
    · exact fdn
    · rw [show pr.2.played = (initStats u).played + _ from fpl]
      rw [hsp.countP_eq (involves u.id)]
      simp [initStats]
    · rw [show pr.2.goals_for = (initStats u).goals_for + _ from fgf]
      rw [(hsp.map (gfContrib u.id)).sum_eq]
      simp [initStats]
    · rw [show pr.2.goals_against = (initStats u).goals_against + _ from fga]
      rw [(hsp.map (gaContrib u.id)).sum_eq]
      simp [initStats]
    · rw [show pr.2.points = (initStats u).points + _ from fpt]
      rw [(hsp.map (ptsContrib u.id)).sum_eq]
      simp [initStats]
    · rw [show pr.2.round_points = (initStats u).round_points + _ from frp]
      rw [(hsp.map (rpContrib up u.id)).sum_eq]
      simp [initStats]
    · rw [show pr.2.wins = (initStats u).wins + _ from fw]
      rw [hsp.countP_eq (winPred u.id)]
      simp [initStats]
    · rw [show pr.2.draws = (initStats u).draws + _ from fd]
      rw [hsp.countP_eq (drawPred u.id)]
      simp [initStats]
    · rw [show pr.2.losses = (initStats u).losses + _ from fl]
      rw [hsp.countP_eq (lossPred u.id)]
      simp [initStats]

lemma _match_points_fst (a b : Nat) :
    (_match_points a b).1 = if a > b then 3 else if b > a then 0 else 1 := by
  unfold _match_points
  split_ifs <;> rfl

lemma _match_points_snd (a b : Nat) :
    (_match_points a b).2 = if b > a then 3 else if a > b then 0 else 1 := by
  unfold _match_points
  split_ifs <;> first | rfl | omega

lemma filter_standings_none (ms : List MatchRow) :
    ms.filter (standingsMatchFilter none) = ms.filter hasScores := by
  apply List.filter_congr
  intro m _
  unfold standingsMatchFilter hasScores
  simp

lemma sum_map_ite_filter {α : Type} (l : List α) (p : α → Bool) (f : α → Nat) :
    (l.map (fun a => if p a then f a else 0)).sum = ((l.filter p).map f).sum := by
  induction l with
  | nil => rfl
  | cons a tl ih => cases hp : p a <;> simp [List.filter_cons, hp, ih]

/-! ## Claim C3: the standings aggregator -/

/-- C3: for every roster of player-role users and every set of confirmed
matches, the standings contain exactly one row per roster player (zero
stats if they played no match), each confirmed match increments `played`
and the goal tallies for both sides and awards points 3/0 to the higher
score, 0/3 to the lower, 1/1 on equality; `goal_difference` equals
`goals_for - goals_against`; rows are ranked by points descending, then
goal difference descending, then goals-for descending, then display name
ascending case-insensitively; and 1-based positions are assigned in that
order.  (The roster-id `Nodup` and the participant hypotheses state the
`users` PRIMARY KEY and the match foreign keys, under which the Python
dictionary aggregation the embedding mirrors is total.) -/
theorem standings_spec (users : List UserRow) (matchRows : List MatchRow)
    (hids : ((users.filter (fun u => u.role == Role.player)).map (fun u => u.id)).Nodup)
    (hdistinct : ∀ m ∈ matchRows, hasScores m = true → m.player1_id ≠ m.player2_id)
    (hparts : ∀ m ∈ matchRows, hasScores m = true →
      m.player1_id ∈ (users.filter (fun u => u.role == Role.player)).map (fun u => u.id) ∧
      m.player2_id ∈ (users.filter (fun u => u.role == Role.player)).map (fun u => u.id)) :
    ((_standings users matchRows none).map (fun r => r.player_id)).Perm
      ((users.filter (fun u => u.role == Role.player)).map (fun u => u.id)) ∧
    (∀ row ∈ _standings users matchRows none,
      row.played = (matchRows.filter hasScores).countP
        (fun m => m.player1_id == row.player_id || m.player2_id == row.player_id) ∧
      row.goals_for = ((matchRows.filter hasScores).map (fun m =>
        if m.player1_id = row.player_id then s1of m
        else if m.player2_id = row.player_id then s2of m else 0)).sum ∧
      row.goals_against = ((matchRows.filter hasScores).map (fun m =>
        if m.player1_id = row.player_id then s2of m
        else if m.player2_id = row.player_id then s1of m else 0)).sum ∧
      row.points = ((matchRows.filter hasScores).map (fun m =>
        if m.player1_id = row.player_id then
          (if s1of m > s2of m then 3 else if s2of m > s1of m then 0 else 1)
        else if m.player2_id = row.player_id then
          (if s2of m > s1of m then 3 else if s1of m > s2of m then 0 else 1)
        else 0)).sum ∧
      row.goal_difference = (row.goals_for : Int) - (row.goals_against : Int)) ∧
    (_standings users matchRows none).Pairwise dtoRankLE ∧
    (∀ i (hi : i < (_standings users matchRows none).length),
      ((_standings users matchRows none).get ⟨i, hi⟩).position = i + 1) := by
  obtain ⟨hpw, hpos, hperm⟩ := standings_order_spec users matchRows none
  refine ⟨hperm, ?_, hpw, hpos⟩
  intro row hrow
  obtain ⟨hgd, u, huf, hpid, -, -, hpl, hgf, hga, hpt, -, -, -, -⟩ :=
    standings_row_spec users matchRows none row hrow
  rw [filter_standings_none] at hpl hgf hga hpt
  have hmem : ∀ m ∈ matchRows.filter hasScores, hasScores m = true := by
    intro m hm
    exact (List.mem_filter.mp hm).2
  refine ⟨?_, ?_, ?_, ?_, hgd⟩
  · rw [hpl, hpid]
    apply List.countP_congr
    intro m hm
    unfold involves
    simp [hmem m hm]
  · rw [hgf, hpid]
    apply congrArg
    apply List.map_congr_left
    intro m hm
    unfold gfContrib
    rw [if_pos (hmem m hm)]
  · rw [hga, hpid]
    apply congrArg
    apply List.map_congr_left
    intro m hm
    unfold gaContrib
    rw [if_pos (hmem m hm)]
  · rw [hpt, hpid]
    apply congrArg
    apply List.map_congr_left
    intro m hm
    unfold ptsContrib
    rw [if_pos (hmem m hm), _match_points_fst, _match_points_snd]

/-- Witness for `standings_spec` on a two-player roster with one confirmed
match. -/
theorem standings_spec_witness :
    ((_standings [sampleUser10, sampleUser20] [sampleConfirmedMatch] none).map
      (fun r => r.player_id)).Perm
      (([sampleUser10, sampleUser20].filter (fun u => u.role == Role.player)).map
        (fun u => u.id)) ∧
    (∀ i (hi : i < (_standings [sampleUser10, sampleUser20] [sampleConfirmedMatch]
        none).length),
      ((_standings [sampleUser10, sampleUser20] [sampleConfirmedMatch] none).get
        ⟨i, hi⟩).position = i + 1) := by
  have h := standings_spec [sampleUser10, sampleUser20] [sampleConfirmedMatch]
    (by decide) (by decide) (by decide)
  exact ⟨h.1, h.2.2.2⟩

/-! ## Claim C4: the round filter -/

/-- C4: with a round filter `u`, the cumulative fields (played, wins, draws,
losses, goals, points) fold exactly the confirmed matches with
`round_number ≤ u`, while `round_points` accumulates points only from
confirmed matches whose `round_number` equals `u` exactly. -/
theorem standings_round_filter_spec (users : List UserRow) (matchRows : List MatchRow)
    (u : Nat) :
    ∀ row ∈ _standings users matchRows (some u),
      row.played = (matchRows.filter (fun m => hasScores m && m.round_number ≤ u)).countP
        (fun m => m.player1_id == row.player_id || m.player2_id == row.player_id) ∧
      row.wins = (matchRows.filter (fun m => hasScores m && m.round_number ≤ u)).countP
        (fun m => if m.player1_id = row.player_id then decide (s1of m > s2of m)
          else if m.player2_id = row.player_id then decide (s2of m > s1of m) else false) ∧
      row.draws = (matchRows.filter (fun m => hasScores m && m.round_number ≤ u)).countP
        (fun m => (m.player1_id == row.player_id || m.player2_id == row.player_id) &&
          (s1of m == s2of m)) ∧
      row.losses = (matchRows.filter (fun m => hasScores m && m.round_number ≤ u)).countP
        (fun m => if m.player1_id = row.player_id then decide (s2of m > s1of m)
          else if m.player2_id = row.player_id then decide (s1of m > s2of m) else false) ∧
      row.goals_for = ((matchRows.filter
          (fun m => hasScores m && m.round_number ≤ u)).map (fun m =>
        if m.player1_id = row.player_id then s1of m
        else if m.player2_id = row.player_id then s2of m else 0)).sum ∧
      row.goals_against = ((matchRows.filter
          (fun m => hasScores m && m.round_number ≤ u)).map (fun m =>
        if m.player1_id = row.player_id then s2of m
        else if m.player2_id = row.player_id then s1of m else 0)).sum ∧
      row.points = ((matchRows.filter
          (fun m => hasScores m && m.round_number ≤ u)).map (ptsContrib row.player_id)).sum ∧
      row.round_points = ((matchRows.filter
          (fun m => hasScores m && m.round_number == u)).map
          (ptsContrib row.player_id)).sum := by
  intro row hrow
  obtain ⟨-, u0, -, hpid, -, -, hpl, hgf, hga, hpt, hrp, hw, hd, hl⟩ :=
    standings_row_spec users matchRows (some u) row hrow
  have hfe : matchRows.filter (standingsMatchFilter (some u)) =
      matchRows.filter (fun m => hasScores m && m.round_number ≤ u) := by
    apply List.filter_congr
    intro m _
    unfold standingsMatchFilter hasScores
    cases m.confirmed_score1.isSome <;> cases m.confirmed_score2.isSome <;> simp
  rw [hfe] at hpl hgf hga hpt hrp hw hd hl
  have hmem : ∀ m ∈ matchRows.filter (fun m => hasScores m && m.round_number ≤ u),
      hasScores m = true := by
    intro m hm
    have := (List.mem_filter.mp hm).2
    simp only [Bool.and_eq_true] at this
    exact this.1
  refine ⟨?_, ?_, ?_, ?_, ?_, ?_, ?_, ?_⟩
  · rw [hpl, hpid]
    apply List.countP_congr
    intro m hm
    unfold involves
    simp [hmem m hm]
  · rw [hw, hpid]
    apply List.countP_congr
    intro m hm
    unfold winPred
    simp only [hmem m hm, Bool.true_and]
    by_cases h1 : m.player1_id = u0.id <;> by_cases h2 : m.player2_id = u0.id <;>
      simp [h1, h2]
  · rw [hd, hpid]
    apply List.countP_congr
    intro m hm
    unfold drawPred
    simp [hmem m hm]
  · rw [hl, hpid]
    apply List.countP_congr
    intro m hm
    unfold lossPred
    simp only [hmem m hm, Bool.true_and]
    by_cases h1 : m.player1_id = u0.id <;> by_cases h2 : m.player2_id = u0.id <;>
      simp [h1, h2]
  · rw [hgf, hpid]
    apply congrArg
    apply List.map_congr_left
    intro m hm
    unfold gfContrib
    rw [if_pos (hmem m hm)]
  · rw [hga, hpid]
    apply congrArg
    apply List.map_congr_left
    intro m hm
    unfold gaContrib
    rw [if_pos (hmem m hm)]
  · rw [hpt, hpid]
  · rw [hrp, hpid]
    have step1 : ((matchRows.filter (fun m => hasScores m && m.round_number ≤ u)).map
        (rpContrib (some u) u0.id)).sum =
        ((matchRows.filter (fun m => hasScores m && m.round_number ≤ u)).map
          (fun m => if (m.round_number == u) then ptsContrib u0.id m else 0)).sum := by
      apply congrArg
      apply List.map_congr_left
      intro m _
      unfold rpContrib
      by_cases h : m.round_number = u <;> simp [h]
    rw [step1, sum_map_ite_filter, List.filter_filter]
    apply congrArg
    apply congrArg
    apply List.filter_congr
    intro m _
    by_cases h : m.round_number = u <;> by_cases h2 : hasScores m <;> simp [h, h2]

/-- Witness for `standings_round_filter_spec` at a concrete filtered
store. -/
theorem standings_round_filter_spec_witness :
    ∃ row ∈ _standings [sampleUser10] [sampleConfirmedMatch] (some 1),
      row.round_points = ((([sampleConfirmedMatch] : List MatchRow).filter
        (fun m => hasScores m && m.round_number == 1)).map
        (ptsContrib row.player_id)).sum := by
  have hne : _standings [sampleUser10] [sampleConfirmedMatch] (some 1) ≠ [] := by
    decide
  cases he : _standings [sampleUser10] [sampleConfirmedMatch] (some 1) with
  | nil => exact absurd he hne
  | cons r rs =>
    refine ⟨r, List.mem_cons_self _ _, ?_⟩
    exact (standings_round_filter_spec [sampleUser10] [sampleConfirmedMatch]
      1 r (by rw [he]; exact List.mem_cons_self _ _)).2.2.2.2.2.2.2

/-! ## Circle-method analysis (for C5/C6)

The arrangement after `r` rotations is the fixed head followed by the tail
right-rotated `r` steps; position `k ≥ 1` of round `r` holds the original
tail index `tIdx m r (k-1)`, where `m` is the tail length (odd, since the
padded list has even length). -/

lemma rotateParticipants_cons (x : Option Nat) (t : List (Option Nat)) (h : t ≠ []) :
    rotateParticipants (x :: t) = x :: t.rotate (t.length - 1) := by
  have hlen : 0 < t.length := List.length_pos.mpr h
  unfold rotateParticipants
  dsimp only
  rw [List.getLast?_eq_getLast t h]
  rw [List.rotate_eq_drop_append_take (by omega)]
  rw [List.drop_eq_getElem_cons (by omega)]
  rw [List.drop_eq_nil_of_le (by omega)]
  rw [List.dropLast_eq_take]
  rw [List.getLast_eq_getElem]
  rfl

lemma iterate_rotateParticipants (x : Option Nat) (t : List (Option Nat)) (h : t ≠ []) :
    ∀ j, rotateParticipants^[j] (x :: t) = x :: t.rotate (j * (t.length - 1)) := by
  intro j
  induction j with
  | zero => simp
  | succ j ih =>
    rw [Function.iterate_succ_apply', ih]
    have hne : t.rotate (j * (t.length - 1)) ≠ [] := by
      intro hc
      have hlr := List.length_rotate t (j * (t.length - 1))
      rw [hc] at hlr
      simp at hlr
      exact h (List.length_eq_zero.mp hlr.symm)
    rw [rotateParticipants_cons x _ hne, List.length_rotate, List.rotate_rotate]
    congr 2
    ring

lemma rrGo_eq_map (c : Nat) :
    ∀ (k r : Nat) (p : List (Option Nat)),
      rrGo c k r p =
        (List.range k).map (fun j => roundPairs c (r + j) (rotateParticipants^[j] p)) := by
  intro k
  induction k with
  | zero => intro r p; rfl
  | succ k ih =>
    intro r p
    rw [List.range_succ_eq_map]
    unfold rrGo
    rw [ih (r + 1) (rotateParticipants p)]
    rw [List.map_cons, List.map_map]
    congr 1
    apply List.map_congr_left
    intro j _
    simp only [Function.comp_apply, Function.iterate_succ_apply]
    congr 1
    omega

/-- Original tail index occupying tail position `k` in round `r` (tail
length `m`). -/
def tIdx (m r k : Nat) : Nat := (k + r * (m - 1)) % m

/-- Original full-list index at the left slot position `i` of round `r`. -/
def slotU (m r i : Nat) : Nat := if i = 0 then 0 else tIdx m r (i - 1) + 1

/-- Original full-list index at the right slot position `count - 1 - i` of
round `r`. -/
def slotV (m r i : Nat) : Nat := tIdx m r (m - 1 - i) + 1

lemma tIdx_lt (m r k : Nat) (hm : 0 < m) : tIdx m r k < m :=
  Nat.mod_lt _ hm

lemma tIdx_inj (m r : Nat) {k k' : Nat} (hk : k < m) (hk' : k' < m)
    (h : tIdx m r k = tIdx m r k') : k = k' := by
  unfold tIdx at h
  have hmod : Nat.ModEq m (k + r * (m - 1)) (k' + r * (m - 1)) := h
  have := Nat.ModEq.add_right_cancel' (r * (m - 1)) hmod
  calc k = k % m := (Nat.mod_eq_of_lt hk).symm
    _ = k' % m := this
    _ = k' := Nat.mod_eq_of_lt hk'

lemma tIdx_inv (m r j : Nat) (hm : 0 < m) (hj : j < m) :
    tIdx m r ((j + r) % m) = j := by
  unfold tIdx
  rw [Nat.mod_add_mod]
  have hmul : r + r * (m - 1) = r * m := by
    have h1 : m - 1 + 1 = m := Nat.succ_pred_eq_of_pos hm
    calc r + r * (m - 1) = r * ((m - 1) + 1) := by ring
      _ = r * m := by rw [h1]
  have : j + r + r * (m - 1) = j + r * m := by omega
  rw [this, Nat.add_mul_mod_self_right, Nat.mod_eq_of_lt hj]

lemma tIdx_modeq (m r k : Nat) : Nat.ModEq m (tIdx m r k) (k + r * (m - 1)) :=
  (Nat.mod_modEq _ m)

lemma arr_get_succ (x : Option Nat) (t : List (Option Nat)) (s k : Nat)
    (hk : k < t.length) :
    (x :: t.rotate s).get? (k + 1) = t.get? ((k + s) % t.length) := by
  rw [List.get?_cons_succ]
  exact List.get?_rotate hk

/-- Round `r`'s pair slots read the original padded list at the slot
indices. -/
lemma roundPairs_eq (x : Option Nat) (t : List (Option Nat)) (r m : Nat)
    (hm : t.length = m) (hodd : m % 2 = 1) :
    roundPairs (m + 1) r (x :: t.rotate (r * (m - 1))) =
      (List.range ((m + 1) / 2)).filterMap (fun i =>
        match (x :: t).get? (slotU m r i), (x :: t).get? (slotV m r i) with
        | some (some a), some (some b) =>
          some (if r % 2 = 0 ∧ i = 0 then (b, a) else (a, b))
        | _, _ => none) := by
  unfold roundPairs
  apply List.filterMap_congr
  intro i hi
  have him : i < (m + 1) / 2 := List.mem_range.mp hi
  have hm1 : 0 < m := by omega
  have hL : (x :: t.rotate (r * (m - 1))).get? i = (x :: t).get? (slotU m r i) := by
    cases i with
    | zero => simp [slotU]
    | succ k =>
      have hk : k < m := by omega
      rw [arr_get_succ x t _ k (by omega)]
      simp [slotU, tIdx, hm]
  have hR : (x :: t.rotate (r * (m - 1))).get? (m + 1 - 1 - i) =
      (x :: t).get? (slotV m r i) := by
    have hmi : m + 1 - 1 - i = (m - 1 - i) + 1 := by omega
    rw [hmi, arr_get_succ x t _ (m - 1 - i) (by omega)]
    simp [slotV, tIdx, hm]
  rw [hL, hR]

lemma slotU_le (m r i : Nat) (hm : 0 < m) : slotU m r i ≤ m := by
  unfold slotU
  split_ifs
  · omega
  · have := tIdx_lt m r (i - 1) hm
    omega

lemma slotV_bounds (m r i : Nat) (hm : 0 < m) : 1 ≤ slotV m r i ∧ slotV m r i ≤ m := by
  unfold slotV
  have := tIdx_lt m r (m - 1 - i) hm
  omega

lemma slotU_eq_zero_iff (m r i : Nat) : slotU m r i = 0 ↔ i = 0 := by
  unfold slotU
  split_ifs with h
  · simp [h]
  · simp [h]

lemma slot_ne (m r i : Nat) (hm : 0 < m) (hodd : m % 2 = 1) (hi : i < (m + 1) / 2) :
    slotU m r i ≠ slotV m r i := by
  rcases Nat.eq_zero_or_pos i with rfl | hpos
  · have h1 := (slotV_bounds m r 0 hm).1
    have hz : slotU m r 0 = 0 := by simp [slotU]
    omega
  · unfold slotU slotV
    rw [if_neg (by omega)]
    intro hc
    have hc' : tIdx m r (i - 1) = tIdx m r (m - 1 - i) := by omega
    have h1 : i - 1 < m := by omega
    have h2 : m - 1 - i < m := by omega
    have := tIdx_inj m r h1 h2 hc'
    omega

/-- Two slots carrying the same unordered pair of original indices are the
same slot of the same round. -/
lemma slot_inj (m : Nat) (hm : 0 < m) (hodd : m % 2 = 1) {r r' i i' : Nat}
    (hr : r < m) (hr' : r' < m) (hi : i < (m + 1) / 2) (hi' : i' < (m + 1) / 2)
    (heq : (slotU m r i = slotU m r' i' ∧ slotV m r i = slotV m r' i') ∨
           (slotU m r i = slotV m r' i' ∧ slotV m r i = slotU m r' i')) :
    r = r' ∧ i = i' := by
  have hcop1 : Nat.gcd m (m - 1) = 1 := by
    have h1 : m - 1 + 1 = m := Nat.succ_pred_eq_of_pos hm
    have h2 : Nat.Coprime ((m - 1) + 1) (m - 1) :=
      (Nat.coprime_self_add_left).mpr (Nat.coprime_one_left _)
    rw [h1] at h2
    exact h2
  have hcop2 : Nat.gcd m 2 = 1 := Nat.coprime_two_right.mpr (Nat.odd_iff.mpr hodd)
  rcases Nat.eq_zero_or_pos i with rfl | hipos
  · rcases Nat.eq_zero_or_pos i' with rfl | hipos'
    · -- fixed-slot against fixed-slot: cancel (m-1) to get r = r'
      refine ⟨?_, rfl⟩
      have hV : slotV m r 0 = slotV m r' 0 := by
        rcases heq with ⟨-, h⟩ | ⟨h1, h2⟩
        · exact h
        · exfalso
          have hz : slotU m r 0 = 0 := by simp [slotU]
          have hb := (slotV_bounds m r' 0 hm).1
          omega
      unfold slotV at hV
      have hV' : tIdx m r (m - 1 - 0) = tIdx m r' (m - 1 - 0) := by omega
      unfold tIdx at hV'
      have hmod : Nat.ModEq m (m - 1 - 0 + r * (m - 1)) (m - 1 - 0 + r' * (m - 1)) := hV'
      have hmod2 := Nat.ModEq.add_left_cancel' (m - 1 - 0) hmod
      have hmod3 : Nat.ModEq m r r' := by
        have := Nat.ModEq.cancel_right_of_coprime hcop1 hmod2
        exact this
      have := hmod3
      unfold Nat.ModEq at this
      rw [Nat.mod_eq_of_lt hr, Nat.mod_eq_of_lt hr'] at this
      exact this
    · -- a fixed slot cannot equal a tail-tail slot
      exfalso
      have hz : slotU m r 0 = 0 := by simp [slotU]
      have h1 := (slotV_bounds m r' i' hm).1
      have h2 : slotU m r' i' ≠ 0 := by
        simp only [Ne, slotU_eq_zero_iff]
        omega
      rcases heq with ⟨hU, -⟩ | ⟨hU, -⟩
      · rw [hz] at hU
        exact h2 hU.symm
      · rw [hz] at hU
        omega
  · rcases Nat.eq_zero_or_pos i' with rfl | hipos'
    · exfalso
      have hz : slotU m r' 0 = 0 := by simp [slotU]
      have h1 := (slotV_bounds m r i hm).1
      have h2 : slotU m r i ≠ 0 := by
        simp only [Ne, slotU_eq_zero_iff]
        omega
      rcases heq with ⟨hU, -⟩ | ⟨-, hV⟩
      · exact h2 (hU.trans hz)
      · rw [hz] at hV
        omega
    · -- both tail-tail: equal sums force r = r', then injectivity forces i = i'
      have hsum : tIdx m r (i - 1) + tIdx m r (m - 1 - i) =
          tIdx m r' (i' - 1) + tIdx m r' (m - 1 - i') := by
        have hU0 : slotU m r i = tIdx m r (i - 1) + 1 := by
          unfold slotU
          rw [if_neg (by omega)]
        have hU0' : slotU m r' i' = tIdx m r' (i' - 1) + 1 := by
          unfold slotU
          rw [if_neg (by omega)]
        have hV0 : slotV m r i = tIdx m r (m - 1 - i) + 1 := rfl
        have hV0' : slotV m r' i' = tIdx m r' (m - 1 - i') + 1 := rfl
        rcases heq with ⟨hU, hV⟩ | ⟨hU, hV⟩ <;> omega
      have hk : (i - 1) + (m - 1 - i) = m - 2 := by omega
      have hk' : (i' - 1) + (m - 1 - i') = m - 2 := by omega
      have hcong : Nat.ModEq m (m - 2 + r * (2 * (m - 1))) (m - 2 + r' * (2 * (m - 1))) := by
        have e1 : Nat.ModEq m (tIdx m r (i - 1) + tIdx m r (m - 1 - i))
            ((i - 1) + r * (m - 1) + ((m - 1 - i) + r * (m - 1))) :=
          Nat.ModEq.add (tIdx_modeq m r (i - 1)) (tIdx_modeq m r (m - 1 - i))
        have e2 : Nat.ModEq m (tIdx m r' (i' - 1) + tIdx m r' (m - 1 - i'))
            ((i' - 1) + r' * (m - 1) + ((m - 1 - i') + r' * (m - 1))) :=
          Nat.ModEq.add (tIdx_modeq m r' (i' - 1)) (tIdx_modeq m r' (m - 1 - i'))
        have e3 : (i - 1) + r * (m - 1) + ((m - 1 - i) + r * (m - 1)) =
            m - 2 + r * (2 * (m - 1)) := by ring_nf; omega
        have e4 : (i' - 1) + r' * (m - 1) + ((m - 1 - i') + r' * (m - 1)) =
            m - 2 + r' * (2 * (m - 1)) := by ring_nf; omega
        rw [e3] at e1
        rw [e4] at e2
        exact (e1.symm.trans (by rw [hsum])).trans e2
      have hcancel := Nat.ModEq.add_left_cancel' (m - 2) hcong
      have hcop : Nat.gcd m (2 * (m - 1)) = 1 := Nat.Coprime.mul_right hcop2 hcop1
      have hrr : Nat.ModEq m r r' := Nat.ModEq.cancel_right_of_coprime hcop hcancel
      have hre : r = r' := by
        have := hrr
        unfold Nat.ModEq at this
        rw [Nat.mod_eq_of_lt hr, Nat.mod_eq_of_lt hr'] at this
        exact this
      subst hre
      refine ⟨rfl, ?_⟩
      rcases heq with ⟨hU, -⟩ | ⟨hU, -⟩
      · unfold slotU at hU
        rw [if_neg (by omega), if_neg (by omega)] at hU
        have := @tIdx_inj m r (i - 1) (i' - 1) (by omega) (by omega) (by omega)
        omega
      · unfold slotU slotV at hU
        rw [if_neg (by omega)] at hU
        have := @tIdx_inj m r (i - 1) (m - 1 - i') (by omega) (by omega) (by omega)
        omega

/-- Every unordered pair of distinct original indices is carried by some
slot of some round. -/
lemma slot_surj (m : Nat) (hm : 0 < m) (hodd : m % 2 = 1) {u v : Nat}
    (hu : u ≤ m) (hv : v ≤ m) (huv : u ≠ v) :
    ∃ r, r < m ∧ ∃ i, i < (m + 1) / 2 ∧
      ((slotU m r i = u ∧ slotV m r i = v) ∨ (slotU m r i = v ∧ slotV m r i = u)) := by
  have fixed : ∀ w, 1 ≤ w → w ≤ m → ∃ r, r < m ∧ slotV m r 0 = w := by
    intro w hw1 hw2
    refine ⟨m - w, by omega, ?_⟩
    unfold slotV tIdx
    have hsum : m - 1 - 0 + (m - w) * (m - 1) = (m - w + 1) * (m - 1) := by
      have h0 : m - 1 - 0 = m - 1 := by omega
      rw [h0]
      ring
    have key : (m - 1 - 0 + (m - w) * (m - 1)) % m = w - 1 := by
      have e1 : (m - w + 1) * (m - 1) + (m - w + 1) = (m - w + 1) * m := by
        have h1 : m - 1 + 1 = m := by omega
        calc (m - w + 1) * (m - 1) + (m - w + 1) = (m - w + 1) * ((m - 1) + 1) := by ring
          _ = (m - w + 1) * m := by rw [h1]
      have e2 : (w - 1) + (m - w + 1) = m := by omega
      have c1 : Nat.ModEq m ((m - w + 1) * (m - 1) + (m - w + 1))
          ((w - 1) + (m - w + 1)) := by
        rw [e1, e2]
        have hz1 : Nat.ModEq m ((m - w + 1) * m) 0 :=
          (Nat.modEq_zero_iff_dvd).mpr ⟨m - w + 1, by ring⟩
        have hz2 : Nat.ModEq m m 0 := (Nat.modEq_zero_iff_dvd).mpr ⟨1, by ring⟩
        exact hz1.trans hz2.symm
      have c2 := Nat.ModEq.add_right_cancel' (m - w + 1) c1
      have c3 : ((m - w + 1) * (m - 1)) % m = (w - 1) % m := c2
      rw [Nat.mod_eq_of_lt (show w - 1 < m by omega)] at c3
      rw [hsum]
      exact c3
    rw [key]
    omega
  rcases Nat.eq_zero_or_pos u with rfl | hu1
  · obtain ⟨r, hr, hV⟩ := fixed v (by omega) hv
    exact ⟨r, hr, 0, by omega, Or.inl ⟨by simp [slotU], hV⟩⟩
  · rcases Nat.eq_zero_or_pos v with rfl | hv1
    · obtain ⟨r, hr, hV⟩ := fixed u hu1 hu
      exact ⟨r, hr, 0, by omega, Or.inr ⟨by simp [slotU], hV⟩⟩
    · have hm2 : 2 ≤ m := by omega
      set j₁ := u - 1 with hj1
      set j₂ := v - 1 with hj2
      set d := (2 * m - 2 - (j₁ + j₂) % m) % m with hd
      set r₀ := (d * ((m + 1) / 2)) % m with hr0
      have hr0m : r₀ < m := Nat.mod_lt _ hm
      have h2r : Nat.ModEq m (2 * r₀) d := by
        have step1 : Nat.ModEq m (2 * r₀) (2 * (d * ((m + 1) / 2))) :=
          Nat.ModEq.mul_left 2 (Nat.mod_modEq _ m)
        have e : 2 * (d * ((m + 1) / 2)) = d * (m + 1) := by
          have h2 : 2 * ((m + 1) / 2) = m + 1 := by omega
          calc 2 * (d * ((m + 1) / 2)) = d * (2 * ((m + 1) / 2)) := by ring
            _ = d * (m + 1) := by rw [h2]
        rw [e] at step1
        have step2 : Nat.ModEq m (d * (m + 1)) (d * 1) := by
          apply Nat.ModEq.mul_left d
          have hz2 : Nat.ModEq m m 0 := (Nat.modEq_zero_iff_dvd).mpr ⟨1, by ring⟩
          have := Nat.ModEq.add_right 1 hz2
          simpa using this
        have := step1.trans step2
        simpa using this
      set q₁ := (j₁ + r₀) % m with hq1
      set q₂ := (j₂ + r₀) % m with hq2
      have hq1m : q₁ < m := Nat.mod_lt _ hm
      have hq2m : q₂ < m := Nat.mod_lt _ hm
      have hj1m : j₁ < m := by omega
      have hj2m : j₂ < m := by omega
      have hqne : q₁ ≠ q₂ := by
        intro hc
        have h1 : Nat.ModEq m (j₁ + r₀) (j₂ + r₀) := hc
        have h2 := Nat.ModEq.add_right_cancel' r₀ h1
        unfold Nat.ModEq at h2
        rw [Nat.mod_eq_of_lt hj1m, Nat.mod_eq_of_lt hj2m] at h2
        omega
      have hsumq : q₁ + q₂ = m - 2 := by
        have c1 : Nat.ModEq m (q₁ + q₂) (j₁ + j₂ + 2 * r₀) := by
          have h := Nat.ModEq.add (Nat.mod_modEq (j₁ + r₀) m) (Nat.mod_modEq (j₂ + r₀) m)
          have e : j₁ + r₀ + (j₂ + r₀) = j₁ + j₂ + 2 * r₀ := by ring
          rw [e] at h
          exact h
        have c2 : Nat.ModEq m (j₁ + j₂ + 2 * r₀) (j₁ + j₂ + d) :=
          Nat.ModEq.add_left _ h2r
        have c3 : Nat.ModEq m (j₁ + j₂ + d) (m - 2) := by
          have hd2 : Nat.ModEq m (j₁ + j₂ + d)
              ((j₁ + j₂) % m + (2 * m - 2 - (j₁ + j₂) % m)) :=
            Nat.ModEq.add (Nat.mod_modEq _ m).symm (Nat.mod_modEq _ m)
          have e5 : (j₁ + j₂) % m + (2 * m - 2 - (j₁ + j₂) % m) = 2 * m - 2 := by
            have hb := Nat.mod_lt (j₁ + j₂) hm
            omega
          rw [e5] at hd2
          have e6 : Nat.ModEq m (2 * m - 2) (m - 2) := by
            have e7 : 2 * m - 2 = (m - 2) + m := by omega
            rw [e7]
            have hz2 : Nat.ModEq m m 0 := (Nat.modEq_zero_iff_dvd).mpr ⟨1, by ring⟩
            have := Nat.ModEq.add_left (m - 2) hz2
            simpa using this
          exact hd2.trans e6
        have call := (c1.trans c2).trans c3
        unfold Nat.ModEq at call
        rw [Nat.mod_eq_of_lt (by omega : m - 2 < m)] at call
        have hb : q₁ + q₂ ≤ 2 * m - 3 := by omega
        obtain ⟨S, hS⟩ : ∃ S, q₁ + q₂ = S := ⟨q₁ + q₂, rfl⟩
        rw [hS] at call hb ⊢
        have hdm := Nat.div_add_mod S m
        rw [call] at hdm
        rcases Nat.lt_or_ge (S / m) 1 with hk | hk
        · have hk0 : S / m = 0 := Nat.lt_one_iff.mp hk
          rw [hk0, Nat.mul_zero] at hdm
          omega
        · have hge : m * 1 ≤ m * (S / m) := Nat.mul_le_mul_left m hk
          rw [Nat.mul_one] at hge
          omega
      set i₀ := min q₁ q₂ + 1 with hi0
      have hi0h : i₀ < (m + 1) / 2 := by
        have hminlt : min q₁ q₂ < max q₁ q₂ := by omega
        have hmm : min q₁ q₂ + max q₁ q₂ = m - 2 := by omega
        omega
      refine ⟨r₀, hr0m, i₀, hi0h, ?_⟩
      have hslotU : slotU m r₀ i₀ = tIdx m r₀ (min q₁ q₂) + 1 := by
        unfold slotU
        rw [if_neg (by omega)]
        congr 2
      have hslotV : slotV m r₀ i₀ = tIdx m r₀ (max q₁ q₂) + 1 := by
        unfold slotV
        congr 2
        omega
      have hinv1 : tIdx m r₀ q₁ = j₁ := by
        have := tIdx_inv m r₀ j₁ hm hj1m
        rw [← hq1] at this
        exact this
      have hinv2 : tIdx m r₀ q₂ = j₂ := by
        have := tIdx_inv m r₀ j₂ hm hj2m
        rw [← hq2] at this
        exact this
      rcases le_or_lt q₁ q₂ with hle | hlt
      · have hmin : min q₁ q₂ = q₁ := min_eq_left hle
        have hmax : max q₁ q₂ = q₂ := max_eq_right hle
        left
        constructor
        · rw [hslotU, hmin, hinv1]
          omega
        · rw [hslotV, hmax, hinv2]
          omega
      · have hmin : min q₁ q₂ = q₂ := min_eq_right (le_of_lt hlt)
        have hmax : max q₁ q₂ = q₁ := max_eq_left (le_of_lt hlt)
        right
        constructor
        · rw [hslotU, hmin, hinv2]
          omega
        · rw [hslotV, hmax, hinv1]
          omega

lemma pad_length (ids : List Nat) :
    (padParticipants ids).length =
      ids.length + (if ids.length % 2 = 1 then 1 else 0) := by
  unfold padParticipants
  split_ifs with h <;> simp

lemma pad_get_lt (ids : List Nat) (k : Nat) (hk : k < ids.length) :
    (padParticipants ids).get? k = some (some (ids.get ⟨k, hk⟩)) := by
  unfold padParticipants
  rw [List.get?_append (by simpa using hk)]
  rw [List.get?_map]
  rw [List.get?_eq_get hk]
  rfl

lemma pad_get_bye (ids : List Nat) (hodd : ids.length % 2 = 1) :
    (padParticipants ids).get? ids.length = some none := by
  unfold padParticipants
  rw [List.get?_append_right (by simp)]
  simp [hodd]

/-- Inversion: a `some (some a)` entry of the padded list must sit at an
index of the original list holding `a`. -/
lemma pad_get_some (ids : List Nat) (k : Nat) (a : Nat)
    (h : (padParticipants ids).get? k = some (some a)) :
    k < ids.length ∧ ids.get? k = some a := by
  unfold padParticipants at h
  by_cases hk : k < ids.length
  · refine ⟨hk, ?_⟩
    rw [List.get?_append (by simpa using hk), List.get?_map] at h
    rcases hg : ids.get? k with _ | b
    · rw [hg] at h
      simp at h
    · rw [hg] at h
      simp at h
      exact congrArg some h
  · exfalso
    rw [List.get?_append_right (by simpa using hk)] at h
    split_ifs at h with hodd
    · rcases hi : k - (ids.map some).length with _ | j
      · rw [List.length_map] at h hi
        rw [hi] at h
        simp at h
      · rw [List.length_map] at h hi
        rw [hi] at h
        simp at h
    · simp at h

/-- The sum of `f` over `List.range m` when `f` is the indicator of a single
`r₀ < m`. -/
lemma sum_range_indicator (f : Nat → Nat) :
    ∀ (m r₀ : Nat), r₀ < m → (∀ r, r < m → f r = if r = r₀ then 1 else 0) →
      ((List.range m).map f).sum = 1 := by
  intro m
  induction m with
  | zero => intro r₀ h; omega
  | succ m ih =>
    intro r₀ hr₀ hf
    rw [List.range_succ, List.map_append, List.sum_append]
    by_cases hcase : r₀ = m
    · have hzero : ((List.range m).map f).sum = 0 := by
        rw [List.sum_eq_zero]
        intro x hx
        obtain ⟨r, hr, rfl⟩ := List.mem_map.mp hx
        have hrm : r < m := List.mem_range.mp hr
        rw [hf r (by omega), if_neg (by omega)]
      rw [hzero]
      simp [hf m (by omega), hcase]
    · have hone : ((List.range m).map f).sum = 1 := by
        refine ih r₀ (by omega) ?_
        intro r hr
        exact hf r (by omega)
      rw [hone]
      have : ¬(m = r₀) := fun hc => hcase hc.symm
      simp [hf m (by omega), this]

/-- `countP` over `List.range h` of a predicate holding at exactly one
index. -/
lemma countP_range_unique (p : Nat → Bool) (h i₀ : Nat) (hi₀ : i₀ < h)
    (hp : p i₀ = true) (huniq : ∀ i, i < h → p i = true → i = i₀) :
    (List.range h).countP p = 1 := by
  have hcong : (List.range h).countP p = (List.range h).countP (fun i => i == i₀) := by
    apply List.countP_congr
    intro i hi
    have him : i < h := List.mem_range.mp hi
    constructor
    · intro hpi
      simpa using huniq i him hpi
    · intro hb
      have : i = i₀ := by simpa using hb
      rw [this]
      exact hp
  rw [hcong]
  have : (List.range h).countP (fun i => i == i₀) = (List.range h).count i₀ := by
    rfl
  rw [this, List.count_eq_one_of_mem (List.nodup_range h) (List.mem_range.mpr hi₀)]

/-- `countP` over `List.range h` of a predicate that never holds. -/
lemma countP_range_zero (p : Nat → Bool) (h : Nat)
    (hnone : ∀ i, i < h → p i = false) : (List.range h).countP p = 0 := by
  rw [List.countP_eq_zero]
  intro i hi
  rw [hnone i (List.mem_range.mp hi)]
  simp

/-- Unified padded lookup: in range, the padded list holds `some (ids.get? j)`
(the bye sentinel at index `ids.length` when the roster is odd, a player
otherwise). -/
lemma pad_get_le (ids : List Nat) (j : Nat) (hj : j < (padParticipants ids).length) :
    (padParticipants ids).get? j = some (ids.get? j) := by
  by_cases h : j < ids.length
  · rw [pad_get_lt ids j h, List.get?_eq_get h]
  · have hlen := pad_length ids
    split_ifs at hlen with hodd
    · have hj' : j = ids.length := by omega
      subst hj'
      rw [pad_get_bye ids hodd, List.get?_eq_none.mpr (le_refl ids.length)]
    · omega

/-- The pair emitted (or dropped) at slot `i` of round `r`, read off the
original roster through the slot indices. -/
def slotPair (ids : List Nat) (m r i : Nat) : Option (Nat × Nat) :=
  match ids.get? (slotU m r i), ids.get? (slotV m r i) with
  | some a, some b => some (if r % 2 = 0 ∧ i = 0 then (b, a) else (a, b))
  | _, _ => none

/-- Closed form of the generator: round `r` collects the slot pairs of
round `r`. -/
lemma gen_eq (ids : List Nat) (x : Option Nat) (t : List (Option Nat)) (m : Nat)
    (hpad : padParticipants ids = x :: t) (hm : t.length = m) (hodd : m % 2 = 1) :
    _generate_round_robin ids =
      (List.range m).map (fun r =>
        (List.range ((m + 1) / 2)).filterMap (slotPair ids m r)) := by
  have hm1 : 0 < m := by omega
  have htne : t ≠ [] := by
    intro hc
    rw [hc] at hm
    simp at hm
    omega
  have hgen : _generate_round_robin ids = rrGo (m + 1) m 0 (x :: t) := by
    unfold _generate_round_robin
    rw [hpad]
    simp [hm]
  rw [hgen, rrGo_eq_map]
  apply List.map_congr_left
  intro r hr
  have hiter : rotateParticipants^[r] (x :: t) = x :: t.rotate (r * (m - 1)) := by
    rw [iterate_rotateParticipants x t htne r, hm]
  rw [Nat.zero_add, hiter, roundPairs_eq x t r m hm hodd]
  apply List.filterMap_congr
  intro i hi
  have hU : (x :: t).get? (slotU m r i) = some (ids.get? (slotU m r i)) := by
    rw [← hpad]
    apply pad_get_le
    rw [hpad]
    have := slotU_le m r i hm1
    simp [hm]
    omega
  have hV : (x :: t).get? (slotV m r i) = some (ids.get? (slotV m r i)) := by
    rw [← hpad]
    apply pad_get_le
    rw [hpad]
    have := (slotV_bounds m r i hm1).2
    simp [hm]
    omega
  rw [hU, hV]
  unfold slotPair
  rcases ids.get? (slotU m r i) with _ | a <;> rcases ids.get? (slotV m r i) with _ | b <;> rfl

/-- Length of a `filterMap` counts the inputs that emit a value. -/
lemma length_filterMap_eq {α β : Type} (f : α → Option β) (l : List α) :
    (l.filterMap f).length = l.countP (fun a => (f a).isSome) := by
  induction l with
  | nil => rfl
  | cons x xs ih =>
    rcases hx : f x with _ | b <;>
      simp [List.filterMap_cons, hx, List.countP_cons, ih]

/-- In a duplicate-free roster an identifier determines its index. -/
lemma get?_unique (ids : List Nat) (hnd : ids.Nodup) {i j a : Nat}
    (hi : ids.get? i = some a) (hj : ids.get? j = some a) : i = j := by
  have hlen : i < ids.length := by
    rcases List.get?_eq_some.mp hi with ⟨h, _⟩
    exact h
  exact List.get?_inj hlen hnd (hi.trans hj.symm)

lemma countP_bool_split {α : Type} (p : α → Bool) (l : List α) :
    l.countP p + l.countP (fun a => !(p a)) = l.length := by
  induction l with
  | nil => rfl
  | cons x xs ih =>
    rcases hx : p x with _ | _ <;> simp [List.countP_cons, hx] <;> omega

/-- Within a round, distinct left slots read distinct original indices. -/
lemma slotU_inj_round (m r : Nat) (hm : 0 < m) (hodd : m % 2 = 1) {i i' : Nat}
    (hi : i < (m + 1) / 2) (hi' : i' < (m + 1) / 2)
    (h : slotU m r i = slotU m r i') : i = i' := by
  rcases Nat.eq_zero_or_pos i with rfl | hip
  · have h0 : slotU m r 0 = 0 := by simp [slotU]
    rw [h0] at h
    exact ((slotU_eq_zero_iff m r i').mp h.symm).symm
  · rcases Nat.eq_zero_or_pos i' with rfl | hip'
    · have h0 : slotU m r 0 = 0 := by simp [slotU]
      rw [h0] at h
      exact absurd ((slotU_eq_zero_iff m r i).mp h) (by omega)
    · unfold slotU at h
      rw [if_neg (by omega), if_neg (by omega)] at h
      have := tIdx_inj m r (show i - 1 < m by omega) (show i' - 1 < m by omega)
        (by omega)
      omega

/-- Within a round, distinct right slots read distinct original indices. -/
lemma slotV_inj_round (m r : Nat) (hm : 0 < m) (hodd : m % 2 = 1) {i i' : Nat}
    (hi : i < (m + 1) / 2) (hi' : i' < (m + 1) / 2)
    (h : slotV m r i = slotV m r i') : i = i' := by
  unfold slotV at h
  have := tIdx_inj m r (show m - 1 - i < m by omega) (show m - 1 - i' < m by omega)
    (by omega)
  omega

/-- Within a round, a left slot and a right slot never read the same
original index. -/
lemma slotU_ne_slotV_round (m r : Nat) (hm : 0 < m) (hodd : m % 2 = 1) {i i' : Nat}
    (hi : i < (m + 1) / 2) (hi' : i' < (m + 1) / 2) :
    slotU m r i ≠ slotV m r i' := by
  rcases Nat.eq_zero_or_pos i with rfl | hip
  · have h0 : slotU m r 0 = 0 := by simp [slotU]
    have h1 := (slotV_bounds m r i' hm).1
    omega
  · intro h
    unfold slotU slotV at h
    rw [if_neg (by omega)] at h
    have heq : tIdx m r (i - 1) = tIdx m r (m - 1 - i') := by omega
    have := tIdx_inj m r (show i - 1 < m by omega) (show m - 1 - i' < m by omega) heq
    omega

/-- Every original index `w ≤ m` is read by some slot of every round. -/
lemma slot_value_surj (m r : Nat) (hm : 0 < m) (hodd : m % 2 = 1) (w : Nat)
    (hw : w ≤ m) :
    ∃ i, i < (m + 1) / 2 ∧ (slotU m r i = w ∨ slotV m r i = w) := by
  rcases Nat.eq_zero_or_pos w with rfl | hw1
  · exact ⟨0, by omega, Or.inl (by simp [slotU])⟩
  · have hj : w - 1 < m := by omega
    set k := (w - 1 + r) % m with hk
    have hkm : k < m := Nat.mod_lt _ hm
    have hkval : tIdx m r k = w - 1 := tIdx_inv m r (w - 1) hm hj
    rcases Nat.lt_or_ge k ((m + 1) / 2 - 1) with hcase | hcase
    · refine ⟨k + 1, by omega, Or.inl ?_⟩
      unfold slotU
      rw [if_neg (by omega)]
      simp only [Nat.add_sub_cancel]
      omega
    · refine ⟨m - 1 - k, by omega, Or.inr ?_⟩
      unfold slotV
      have hmk : m - 1 - (m - 1 - k) = k := by omega
      rw [hmk]
      omega

lemma get?_isSome_iff (l : List Nat) (n : Nat) :
    (l.get? n).isSome = true ↔ n < l.length := by
  rcases h : l.get? n with _ | a
  · simp only [Option.isSome_none, Bool.false_eq_true, false_iff]
    have := List.get?_eq_none.mp h
    omega
  · simp only [Option.isSome_some, true_iff]
    rcases List.get?_eq_some.mp h with ⟨hb, _⟩
    exact hb

lemma slotPair_isSome (ids : List Nat) (m r i : Nat) :
    (slotPair ids m r i).isSome =
      ((ids.get? (slotU m r i)).isSome && (ids.get? (slotV m r i)).isSome) := by
  unfold slotPair
  rcases ids.get? (slotU m r i) with _ | a <;>
    rcases ids.get? (slotV m r i) with _ | b <;> rfl

lemma slotPair_isSome_iff (ids : List Nat) (m r i : Nat) :
    (slotPair ids m r i).isSome = true ↔
      (slotU m r i < ids.length ∧ slotV m r i < ids.length) := by
  rw [slotPair_isSome, Bool.and_eq_true, get?_isSome_iff, get?_isSome_iff]

/-- A slot emits a pair on exactly the players `{a, b}` iff its two slot
indices are the indices of `a` and `b` (in either order). -/
lemma slotPair_pairIs (ids : List Nat) (hnd : ids.Nodup) {ia ib a b : Nat}
    (hia : ids.get? ia = some a) (hib : ids.get? ib = some b)
    (m r i : Nat) :
    ((slotPair ids m r i).map
        (fun pr => (pr.1 == a && pr.2 == b) || (pr.1 == b && pr.2 == a))).getD false
        = true ↔
      ((slotU m r i = ia ∧ slotV m r i = ib) ∨
        (slotU m r i = ib ∧ slotV m r i = ia)) := by
  unfold slotPair
  rcases hu : ids.get? (slotU m r i) with _ | c <;>
    rcases hv : ids.get? (slotV m r i) with _ | d
  · simp only [Option.map_none', Option.getD_none, Bool.false_eq_true, false_iff]
    rintro (⟨h1, h2⟩ | ⟨h1, h2⟩)
    · rw [h1] at hu
      rw [hu] at hia
      cases hia
    · rw [h1] at hu
      rw [hu] at hib
      cases hib
  · simp only [Option.map_none', Option.getD_none, Bool.false_eq_true, false_iff]
    rintro (⟨h1, h2⟩ | ⟨h1, h2⟩)
    · rw [h1] at hu
      rw [hu] at hia
      cases hia
    · rw [h1] at hu
      rw [hu] at hib
      cases hib
  · simp only [Option.map_none', Option.getD_none, Bool.false_eq_true, false_iff]
    rintro (⟨h1, h2⟩ | ⟨h1, h2⟩)
    · rw [h2] at hv
      rw [hv] at hib
      cases hib
    · rw [h2] at hv
      rw [hv] at hia
      cases hia
  · simp only [Option.map_some', Option.getD_some]
    by_cases hflip : r % 2 = 0 ∧ i = 0
    · rw [if_pos hflip]
      simp only [Bool.or_eq_true, Bool.and_eq_true, beq_iff_eq]
      constructor
      · rintro (⟨h1, h2⟩ | ⟨h1, h2⟩)
        · rw [h2] at hu
          rw [h1] at hv
          exact Or.inr ⟨get?_unique ids hnd hu hib, get?_unique ids hnd hv hia⟩
        · rw [h2] at hu
          rw [h1] at hv
          exact Or.inl ⟨get?_unique ids hnd hu hia, get?_unique ids hnd hv hib⟩
      · rintro (⟨h1, h2⟩ | ⟨h1, h2⟩)
        · rw [h1] at hu
          rw [h2] at hv
          rw [hu] at hia
          rw [hv] at hib
          cases hia
          cases hib
          exact Or.inr ⟨rfl, rfl⟩
        · rw [h1] at hu
          rw [h2] at hv
          rw [hu] at hib
          rw [hv] at hia
          cases hia
          cases hib
          exact Or.inl ⟨rfl, rfl⟩
    · rw [if_neg hflip]
      simp only [Bool.or_eq_true, Bool.and_eq_true, beq_iff_eq]
      constructor
      · rintro (⟨h1, h2⟩ | ⟨h1, h2⟩)
        · rw [h1] at hu
          rw [h2] at hv
          exact Or.inl ⟨get?_unique ids hnd hu hia, get?_unique ids hnd hv hib⟩
        · rw [h1] at hu
          rw [h2] at hv
          exact Or.inr ⟨get?_unique ids hnd hu hib, get?_unique ids hnd hv hia⟩
      · rintro (⟨h1, h2⟩ | ⟨h1, h2⟩)
        · rw [h1] at hu
          rw [h2] at hv
          rw [hu] at hia
          rw [hv] at hib
          cases hia
          cases hib
          exact Or.inl ⟨rfl, rfl⟩
        · rw [h1] at hu
          rw [h2] at hv
          rw [hu] at hib
          rw [hv] at hia
          cases hia
          cases hib
          exact Or.inr ⟨rfl, rfl⟩

lemma slot_cross {m r r' i i' u v : Nat}
    (h1 : (slotU m r i = u ∧ slotV m r i = v) ∨
      (slotU m r i = v ∧ slotV m r i = u))
    (h2 : (slotU m r' i' = u ∧ slotV m r' i' = v) ∨
      (slotU m r' i' = v ∧ slotV m r' i' = u)) :
    (slotU m r i = slotU m r' i' ∧ slotV m r i = slotV m r' i') ∨
      (slotU m r i = slotV m r' i' ∧ slotV m r i = slotU m r' i') := by
  rcases h1 with ⟨ha, hb⟩ | ⟨ha, hb⟩ <;> rcases h2 with ⟨hc, hd⟩ | ⟨hc, hd⟩
  · exact Or.inl ⟨ha.trans hc.symm, hb.trans hd.symm⟩
  · exact Or.inr ⟨ha.trans hd.symm, hb.trans hc.symm⟩
  · exact Or.inr ⟨ha.trans hd.symm, hb.trans hc.symm⟩
  · exact Or.inl ⟨ha.trans hc.symm, hb.trans hd.symm⟩

/-- Across all rounds and slots, the unordered index pair `{u, v}` occurs
exactly once: the per-round counts of any predicate recognising it sum
to 1. -/
lemma slot_pair_round_count (m : Nat) (hm : 0 < m) (hodd : m % 2 = 1) {u v : Nat}
    (hu : u ≤ m) (hv : v ≤ m) (huv : u ≠ v) (P : Nat → Nat → Bool)
    (hP : ∀ r i, P r i = true ↔
          ((slotU m r i = u ∧ slotV m r i = v) ∨
            (slotU m r i = v ∧ slotV m r i = u))) :
    ((List.range m).map
      (fun r => (List.range ((m + 1) / 2)).countP (P r))).sum = 1 := by
  obtain ⟨r₀, hr₀, i₀, hi₀, hslot₀⟩ := slot_surj m hm hodd hu hv huv
  apply sum_range_indicator _ m r₀ hr₀
  intro r hr
  by_cases hcase : r = r₀
  · subst hcase
    rw [if_pos rfl]
    apply countP_range_unique _ _ i₀ hi₀ ((hP r i₀).mpr hslot₀)
    intro i hi hPi
    exact (slot_inj m hm hodd hr hr hi hi₀
      (slot_cross ((hP r i).mp hPi) hslot₀)).2
  · rw [if_neg hcase]
    apply countP_range_zero
    intro i hi
    rcases hPi : P r i with _ | _
    · rfl
    · exact absurd (slot_inj m hm hodd hr hr₀ hi hi₀
        (slot_cross ((hP r i).mp hPi) hslot₀)).1 hcase

lemma get?_len_none (ids : List Nat) (m : Nat) (hlen : ids.length = m) :
    ids.get? m = none :=
  List.get?_eq_none.mpr (by omega)

/-- Every unordered pair of distinct roster players appears in exactly one
generated pair across all rounds. -/
lemma gen_pair_count (ids : List Nat) (hnd : ids.Nodup)
    (x : Option Nat) (t : List (Option Nat)) (m : Nat)
    (hpad : padParticipants ids = x :: t) (hm : t.length = m) (hodd : m % 2 = 1)
    {a b : Nat} (ha : a ∈ ids) (hb : b ∈ ids) (hab : a ≠ b) :
    ((_generate_round_robin ids).flatten).countP
      (fun pr => (pr.1 == a && pr.2 == b) || (pr.1 == b && pr.2 == a)) = 1 := by
  have hm1 : 0 < m := by omega
  have hnm : ids.length ≤ m + 1 := by
    have h1 := pad_length ids
    rw [hpad] at h1
    simp only [List.length_cons, hm] at h1
    split_ifs at h1 <;> omega
  obtain ⟨ia, hia⟩ := List.mem_iff_get?.mp ha
  obtain ⟨ib, hib⟩ := List.mem_iff_get?.mp hb
  have hialt : ia < ids.length := by
    rcases List.get?_eq_some.mp hia with ⟨h, _⟩
    exact h
  have hiblt : ib < ids.length := by
    rcases List.get?_eq_some.mp hib with ⟨h, _⟩
    exact h
  have hiab : ia ≠ ib := by
    intro hc
    rw [hc] at hia
    rw [hia] at hib
    exact hab (Option.some.inj hib)
  rw [gen_eq ids x t m hpad hm hodd, List.countP_flatten, List.map_map]
  have heq : (List.countP
        (fun pr => (pr.1 == a && pr.2 == b) || (pr.1 == b && pr.2 == a)) ∘
      fun r => (List.range ((m + 1) / 2)).filterMap (slotPair ids m r)) =
      fun r => (List.range ((m + 1) / 2)).countP
        (fun i => ((slotPair ids m r i).map
          (fun pr => (pr.1 == a && pr.2 == b) || (pr.1 == b && pr.2 == a))).getD false) := by
    funext r
    exact List.countP_filterMap ..
  rw [heq]
  exact slot_pair_round_count m hm1 hodd (by omega) (by omega) hiab _
    (fun r i => slotPair_pairIs ids hnd hia hib m r i)

/-- With an even roster every slot of every round emits a pair. -/
lemma gen_round_len_even (ids : List Nat) (m r : Nat) (hm : 0 < m)
    (hodd : m % 2 = 1) (hlen : ids.length = m + 1) :
    ((List.range ((m + 1) / 2)).filterMap (slotPair ids m r)).length =
      (m + 1) / 2 := by
  rw [length_filterMap_eq]
  have hall : ∀ i ∈ List.range ((m + 1) / 2),
      (fun a => (slotPair ids m r a).isSome) i := by
    intro i hi
    have h1 := slotU_le m r i hm
    have h2 := (slotV_bounds m r i hm).2
    exact (slotPair_isSome_iff ids m r i).mpr ⟨by omega, by omega⟩
  rw [List.countP_eq_length.mpr hall, List.length_range]

/-- Exactly one slot of each round touches the bye sentinel. -/
lemma bye_slot_unique (m r : Nat) (hm : 0 < m) (hodd : m % 2 = 1) :
    ∃ i₀, i₀ < (m + 1) / 2 ∧ (slotU m r i₀ = m ∨ slotV m r i₀ = m) ∧
      ∀ i, i < (m + 1) / 2 → (slotU m r i = m ∨ slotV m r i = m) → i = i₀ := by
  obtain ⟨i₀, hi₀, hval⟩ := slot_value_surj m r hm hodd m le_rfl
  refine ⟨i₀, hi₀, hval, ?_⟩
  intro i hi hval'
  rcases hval with h₀ | h₀ <;> rcases hval' with h | h
  · exact slotU_inj_round m r hm hodd hi hi₀ (h.trans h₀.symm)
  · exact absurd (h₀.trans h.symm) (slotU_ne_slotV_round m r hm hodd hi₀ hi)
  · exact absurd (h.trans h₀.symm) (slotU_ne_slotV_round m r hm hodd hi hi₀)
  · exact slotV_inj_round m r hm hodd hi hi₀ (h.trans h₀.symm)

/-- With an odd roster exactly one slot per round is dropped (the bye),
leaving `(m + 1) / 2 - 1` pairs. -/
lemma gen_round_len_odd (ids : List Nat) (m r : Nat) (hm : 0 < m)
    (hodd : m % 2 = 1) (hlen : ids.length = m) :
    ((List.range ((m + 1) / 2)).filterMap (slotPair ids m r)).length =
      (m + 1) / 2 - 1 := by
  rw [length_filterMap_eq]
  obtain ⟨i₀, hi₀, hval, huniq⟩ := bye_slot_unique m r hm hodd
  have hbye : (List.range ((m + 1) / 2)).countP
      (fun i => !(slotPair ids m r i).isSome) = 1 := by
    apply countP_range_unique _ _ i₀ hi₀
    · show (!(slotPair ids m r i₀).isSome) = true
      simp only [Bool.not_eq_true']
      rcases hS : (slotPair ids m r i₀).isSome with _ | _
      · rfl
      · exfalso
        rcases (slotPair_isSome_iff ids m r i₀).mp hS with ⟨h1, h2⟩
        rcases hval with h | h <;> omega
    · intro i hi hPi
      apply huniq i hi
      have hS : (slotPair ids m r i).isSome = false := by
        have h := hPi
        simp only [Bool.not_eq_true'] at h
        exact h
      have hnot : ¬(slotU m r i < ids.length ∧ slotV m r i < ids.length) := by
        intro hc
        rw [(slotPair_isSome_iff ids m r i).mpr hc] at hS
        cases hS
      have h1 := slotU_le m r i hm
      have h2 := (slotV_bounds m r i hm).2
      rw [hlen] at hnot
      omega
  have hsplit := countP_bool_split
    (fun i => (slotPair ids m r i).isSome) (List.range ((m + 1) / 2))
  rw [List.length_range] at hsplit
  omega

/-- With an odd roster, player `a` (at roster index `ia`) is absent from a
round exactly when that round pairs `ia` with the bye index `m`. -/
lemma absent_iff (ids : List Nat) (hnd : ids.Nodup) (m r : Nat) (hm : 0 < m)
    (hodd : m % 2 = 1) (hlen : ids.length = m)
    {ia a : Nat} (hia : ids.get? ia = some a) :
    (((List.range ((m + 1) / 2)).filterMap (slotPair ids m r)).all
        (fun pr => !(pr.1 == a || pr.2 == a))) = true ↔
      ∃ i, i < (m + 1) / 2 ∧
        ((slotU m r i = ia ∧ slotV m r i = m) ∨
          (slotU m r i = m ∧ slotV m r i = ia)) := by
  have hialt : ia < ids.length := by
    rcases List.get?_eq_some.mp hia with ⟨h, _⟩
    exact h
  rw [List.all_eq_true]
  constructor
  · intro hall
    by_contra hno
    push_neg at hno
    obtain ⟨i₁, hi₁, hval⟩ := slot_value_surj m r hm hodd ia (by omega)
    rcases hval with hU | hV
    · have hVb := slotV_bounds m r i₁ hm
      have hVne : slotV m r i₁ ≠ m := by
        intro hc
        exact (hno i₁ hi₁).1 hU hc
      have hVlt : slotV m r i₁ < ids.length := by omega
      obtain ⟨d, hd⟩ : ∃ d, ids.get? (slotV m r i₁) = some d := by
        rcases hg : ids.get? (slotV m r i₁) with _ | d
        · have := List.get?_eq_none.mp hg
          omega
        · exact ⟨d, rfl⟩
      have hemit : slotPair ids m r i₁ =
          some (if r % 2 = 0 ∧ i₁ = 0 then (d, a) else (a, d)) := by
        unfold slotPair
        rw [hU, hia, hd]
      have hmem : (if r % 2 = 0 ∧ i₁ = 0 then (d, a) else (a, d)) ∈
          (List.range ((m + 1) / 2)).filterMap (slotPair ids m r) :=
        List.mem_filterMap.mpr ⟨i₁, List.mem_range.mpr hi₁, hemit⟩
      have hcontra := hall _ hmem
      split_ifs at hcontra <;> simp at hcontra
    · have hUb := slotU_le m r i₁ hm
      have hUne : slotU m r i₁ ≠ m := by
        intro hc
        exact (hno i₁ hi₁).2 hc hV
      have hUlt : slotU m r i₁ < ids.length := by omega
      obtain ⟨c, hc⟩ : ∃ c, ids.get? (slotU m r i₁) = some c := by
        rcases hg : ids.get? (slotU m r i₁) with _ | c
        · have := List.get?_eq_none.mp hg
          omega
        · exact ⟨c, rfl⟩
      have hemit : slotPair ids m r i₁ =
          some (if r % 2 = 0 ∧ i₁ = 0 then (a, c) else (c, a)) := by
        unfold slotPair
        rw [hV, hia, hc]
      have hmem : (if r % 2 = 0 ∧ i₁ = 0 then (a, c) else (c, a)) ∈
          (List.range ((m + 1) / 2)).filterMap (slotPair ids m r) :=
        List.mem_filterMap.mpr ⟨i₁, List.mem_range.mpr hi₁, hemit⟩
      have hcontra := hall _ hmem
      split_ifs at hcontra <;> simp at hcontra
  · rintro ⟨i, hi, hcase⟩ pr hpr
    obtain ⟨i', hi'mem, hemit⟩ := List.mem_filterMap.mp hpr
    have hi' : i' < (m + 1) / 2 := List.mem_range.mp hi'mem
    unfold slotPair at hemit
    rcases hu' : ids.get? (slotU m r i') with _ | c <;>
      rcases hv' : ids.get? (slotV m r i') with _ | d <;>
      rw [hu', hv'] at hemit
    · cases hemit
    · cases hemit
    · cases hemit
    · have hprval := Option.some.inj hemit
      have hcne : c ≠ a := by
        intro hca
        rw [hca] at hu'
        have hueq : slotU m r i' = ia := get?_unique ids hnd hu' hia
        rcases hcase with ⟨hU, hV⟩ | ⟨hU, hV⟩
        · have hii : i' = i := slotU_inj_round m r hm hodd hi' hi (hueq.trans hU.symm)
          subst hii
          rw [hV] at hv'
          rw [get?_len_none ids m hlen] at hv'
          cases hv'
        · exact absurd (hueq.trans hV.symm) (slotU_ne_slotV_round m r hm hodd hi' hi)
      have hdne : d ≠ a := by
        intro hda
        rw [hda] at hv'
        have hveq : slotV m r i' = ia := get?_unique ids hnd hv' hia
        rcases hcase with ⟨hU, hV⟩ | ⟨hU, hV⟩
        · exact absurd (hU.trans hveq.symm) (slotU_ne_slotV_round m r hm hodd hi hi')
        · have hii : i' = i := slotV_inj_round m r hm hodd hi' hi (hveq.trans hV.symm)
          subst hii
          rw [hU] at hu'
          rw [get?_len_none ids m hlen] at hu'
          cases hu'
      subst hprval
      simp only [Bool.not_eq_true', Bool.or_eq_false_iff, beq_eq_false_iff_ne]
      split_ifs
      · exact ⟨hdne, hcne⟩
      · exact ⟨hcne, hdne⟩

/-- With an odd roster every player misses exactly one round. -/
lemma gen_absent_count (ids : List Nat) (hnd : ids.Nodup)
    (x : Option Nat) (t : List (Option Nat)) (m : Nat)
    (hpad : padParticipants ids = x :: t) (hm : t.length = m) (hodd : m % 2 = 1)
    (hlen : ids.length = m) {a : Nat} (ha : a ∈ ids) :
    (_generate_round_robin ids).countP
      (fun round => round.all (fun pr => !(pr.1 == a || pr.2 == a))) = 1 := by
  have hm1 : 0 < m := by omega
  obtain ⟨ia, hia⟩ := List.mem_iff_get?.mp ha
  have hialt : ia < ids.length := by
    rcases List.get?_eq_some.mp hia with ⟨h, _⟩
    exact h
  rw [gen_eq ids x t m hpad hm hodd, List.countP_map]
  obtain ⟨r₀, hr₀, i₀, hi₀, hslot₀⟩ :=
    slot_surj m hm1 hodd (show ia ≤ m by omega) (le_refl m) (by omega)
  apply countP_range_unique _ m r₀ hr₀
  · show ((List.range ((m + 1) / 2)).filterMap (slotPair ids m r₀)).all
        (fun pr => !(pr.1 == a || pr.2 == a)) = true
    rw [absent_iff ids hnd m r₀ hm1 hodd hlen hia]
    exact ⟨i₀, hi₀, hslot₀⟩
  · intro r hr hPr
    obtain ⟨i, hi, hcase⟩ := (absent_iff ids hnd m r hm1 hodd hlen hia).mp hPr
    exact (slot_inj m hm1 hodd hr hr₀ hi hi₀ (slot_cross hcase hslot₀)).1

/-- C5: for every list of distinct player identifiers, fixture generation
produces, when the count `N` is even, exactly `N - 1` rounds of `N / 2`
pairs each; when `N` is odd, exactly `N` rounds of `(N - 1) / 2` pairs each
with every player absent from exactly one round; and in both cases every
unordered pair of distinct players appears in exactly one generated pair
across all rounds. -/
theorem round_robin_spec (ids : List Nat) (hnd : ids.Nodup) :
    (ids.length % 2 = 0 →
      (_generate_round_robin ids).length = ids.length - 1 ∧
      ∀ round ∈ _generate_round_robin ids, round.length = ids.length / 2) ∧
    (ids.length % 2 = 1 →
      (_generate_round_robin ids).length = ids.length ∧
      (∀ round ∈ _generate_round_robin ids, round.length = (ids.length - 1) / 2) ∧
      ∀ a ∈ ids, (_generate_round_robin ids).countP
          (fun round => round.all (fun pr => !(pr.1 == a || pr.2 == a))) = 1) ∧
    (∀ a ∈ ids, ∀ b ∈ ids, a ≠ b →
      ((_generate_round_robin ids).flatten).countP
        (fun pr => (pr.1 == a && pr.2 == b) || (pr.1 == b && pr.2 == a)) = 1) := by
  by_cases hn : ids.length = 0
  · have hids : ids = [] := List.length_eq_zero.mp hn
    subst hids
    refine ⟨fun _ => ⟨by decide, ?_⟩, fun h => absurd h (by decide),
      fun a ha => absurd ha (List.not_mem_nil a)⟩
    intro round hr
    rw [show _generate_round_robin [] = [] from rfl] at hr
    cases hr
  · have hpos : 0 < ids.length := Nat.pos_of_ne_zero hn
    have hpadlen := pad_length ids
    rcases hp : padParticipants ids with _ | ⟨x, t⟩
    · rw [hp] at hpadlen
      simp at hpadlen
      split_ifs at hpadlen <;> omega
    · have hmlen : (padParticipants ids).length = t.length + 1 := by
        rw [hp]
        simp
    
      have hrel : t.length + 1 = ids.length + (if ids.length % 2 = 1 then 1 else 0) := by
        rw [← hmlen, hpadlen]
      have heven : ids.length % 2 = 0 → ids.length = t.length + 1 := by
        intro h
        split_ifs at hrel <;> omega
      have hoddn : ids.length % 2 = 1 → ids.length = t.length := by
        intro h
        split_ifs at hrel <;> omega
      have hodd : t.length % 2 = 1 := by
        rcases Nat.even_or_odd ids.length with he | ho
        · have h0 : ids.length % 2 = 0 := Nat.even_iff.mp he
          have := heven h0
          omega
        · have h1 : ids.length % 2 = 1 := Nat.odd_iff.mp ho
          have := hoddn h1
          omega
      have hm1 : 0 < t.length := by omega
      have hgen := gen_eq ids x t t.length hp rfl hodd
      refine ⟨?_, ?_, ?_⟩
      · intro h
        constructor
        · rw [hgen]
          simp only [List.length_map, List.length_range]
          have := heven h
          omega
        · intro round hround
          rw [hgen] at hround
          obtain ⟨r, hrmem, hrval⟩ := List.mem_map.mp hround
          rw [← hrval]
          rw [gen_round_len_even ids t.length r hm1 hodd (heven h)]
          have := heven h
          omega
      · intro h
        refine ⟨?_, ?_, ?_⟩
        · rw [hgen]
          simp only [List.length_map, List.length_range]
          exact (hoddn h).symm
        · intro round hround
          rw [hgen] at hround
          obtain ⟨r, hrmem, hrval⟩ := List.mem_map.mp hround
          rw [← hrval]
          rw [gen_round_len_odd ids t.length r hm1 hodd (hoddn h)]
          have := hoddn h
          omega
        · intro a ha
          exact gen_absent_count ids hnd x t t.length hp rfl hodd (hoddn h) ha
      · intro a ha b hb hab
        exact gen_pair_count ids hnd x t t.length hp rfl hodd ha hb hab

/-- Witness for `round_robin_spec` on the four-player roster `[1, 2, 3, 4]`. -/
theorem round_robin_spec_witness :
    ([1, 2, 3, 4] : List Nat).Nodup ∧
    ((([1, 2, 3, 4] : List Nat).length % 2 = 0 →
      (_generate_round_robin [1, 2, 3, 4]).length = ([1, 2, 3, 4] : List Nat).length - 1 ∧
      ∀ round ∈ _generate_round_robin [1, 2, 3, 4],
        round.length = ([1, 2, 3, 4] : List Nat).length / 2) ∧
    (([1, 2, 3, 4] : List Nat).length % 2 = 1 →
      (_generate_round_robin [1, 2, 3, 4]).length = ([1, 2, 3, 4] : List Nat).length ∧
      (∀ round ∈ _generate_round_robin [1, 2, 3, 4],
        round.length = (([1, 2, 3, 4] : List Nat).length - 1) / 2) ∧
      ∀ a ∈ ([1, 2, 3, 4] : List Nat), (_generate_round_robin [1, 2, 3, 4]).countP
          (fun round => round.all (fun pr => !(pr.1 == a || pr.2 == a))) = 1) ∧
    (∀ a ∈ ([1, 2, 3, 4] : List Nat), ∀ b ∈ ([1, 2, 3, 4] : List Nat), a ≠ b →
      ((_generate_round_robin [1, 2, 3, 4]).flatten).countP
        (fun pr => (pr.1 == a && pr.2 == b) || (pr.1 == b && pr.2 == a)) = 1)) :=
  ⟨by decide, round_robin_spec [1, 2, 3, 4] (by decide)⟩

/-! ## C6: the spec's wording of the circle method.

The following definitions are written from the specification text (fixed
head; between rounds the remainder becomes `[pos_last, pos_1 ..
pos_{last-1}]`; pair position `i` with `count - 1 - i` for `i ∈ [0,
count/2)`, dropping bye pairs; reverse the pair emitted at `i = 0` on even
round indices), to be compared with the source-derived
`_generate_round_robin`. -/

/-- Rotation as worded by the spec: `new order = [pos0, pos_last,
pos1..pos_{last-1}]`. -/
def specRotate : List (Option Nat) → List (Option Nat)
  | [] => []
  | p0 :: rest => p0 :: (rest.getLast?.toList ++ rest.dropLast)

/-- Pairing as worded by the spec: position `i` against position
`count - 1 - i` (the first half zipped with the reversed second half),
bye pairs dropped, and the `i = 0` pair reversed on even round indices. -/
def specRoundPairs (count r : Nat) (p : List (Option Nat)) : List (Nat × Nat) :=
  (((p.take (count / 2)).zip ((p.drop (count / 2)).reverse)).enum).filterMap
    (fun pr =>
      match pr.2.1, pr.2.2 with
      | some left, some right =>
        some (if r % 2 = 0 ∧ pr.1 = 0 then (right, left) else (left, right))
      | _, _ => none)

/-- Generator as worded by the spec: `count - 1` rounds, round `r` pairing
the arrangement obtained by rotating `r` times. -/
def _generate_round_robin_spec (player_ids : List Nat) : List (List (Nat × Nat)) :=
  let padded := padParticipants player_ids
  (List.range (padded.length - 1)).map (fun r =>
    specRoundPairs padded.length r (specRotate^[r] padded))

lemma specRotate_eq (x : Option Nat) (t : List (Option Nat)) (h : t ≠ []) :
    specRotate (x :: t) = rotateParticipants (x :: t) := by
  unfold specRotate rotateParticipants
  dsimp only
  rw [List.getLast?_eq_getLast t h]
  rfl

lemma specRotate_iterate (x : Option Nat) (t : List (Option Nat)) (h : t ≠ []) :
    ∀ j, specRotate^[j] (x :: t) = rotateParticipants^[j] (x :: t) := by
  intro j
  induction j with
  | zero => rfl
  | succ j ih =>
    rw [Function.iterate_succ_apply', Function.iterate_succ_apply', ih,
      iterate_rotateParticipants x t h j]
    have hne : t.rotate (j * (t.length - 1)) ≠ [] := by
      intro hc
      have hlr := List.length_rotate t (j * (t.length - 1))
      rw [hc] at hlr
      simp at hlr
      exact h (List.length_eq_zero.mp hlr.symm)
    exact specRotate_eq x _ hne

lemma filterMap_enumFrom_eq_range {α β : Type} (F : Nat × α → Option β) :
    ∀ (l : List α) (s : Nat),
      (l.enumFrom s).filterMap F =
        (List.range l.length).filterMap (fun i =>
          match l.get? i with
          | some a => F (s + i, a)
          | none => none) := by
  intro l
  induction l with
  | nil => intro s; rfl
  | cons x xs ih =>
    intro s
    have htail : (xs.enumFrom (s + 1)).filterMap F =
        (List.range xs.length).filterMap ((fun i =>
          match (x :: xs).get? i with
          | some a => F (s + i, a)
          | none => none) ∘ Nat.succ) := by
      rw [ih (s + 1)]
      apply List.filterMap_congr
      intro i hi
      simp only [Function.comp_apply, List.get?_cons_succ]
      rcases xs.get? i with _ | a
      · rfl
      · have harith : s + 1 + i = s + (i + 1) := by omega
        rw [harith]
    show ((s, x) :: xs.enumFrom (s + 1)).filterMap F = _
    rw [List.filterMap_cons, List.length_cons, List.range_succ_eq_map,
      List.filterMap_cons, List.filterMap_map, ← htail]
    simp only [List.get?_cons_zero, Nat.add_zero]

lemma specRoundPairs_eq (count r : Nat) (q : List (Option Nat))
    (hq : q.length = count) (hcount : count % 2 = 0) :
    specRoundPairs count r q = roundPairs count r q := by
  unfold specRoundPairs roundPairs
  have hziplen :
      ((q.take (count / 2)).zip ((q.drop (count / 2)).reverse)).length = count / 2 := by
    rw [List.length_zip, List.length_take, List.length_reverse, List.length_drop, hq]
    omega
  rw [List.enum_eq_enumFrom, filterMap_enumFrom_eq_range, hziplen]
  apply List.filterMap_congr
  intro i hi
  have him : i < count / 2 := List.mem_range.mp hi
  have hq1 : i < q.length := by omega
  have hq2 : count - 1 - i < q.length := by omega
  have hilt : i < ((q.take (count / 2)).zip ((q.drop (count / 2)).reverse)).length := by
    rw [hziplen]
    exact him
  have hzi : ((q.take (count / 2)).zip ((q.drop (count / 2)).reverse)).get? i =
      some (q.get ⟨i, hq1⟩, q.get ⟨count - 1 - i, hq2⟩) := by
    rw [List.get?_eq_get hilt]
    congr 1
    simp only [List.get_eq_getElem, List.getElem_zip]
    simp only [Prod.mk.injEq]
    constructor
    · rw [List.getElem_take]
    · rw [List.getElem_reverse, List.getElem_drop]
      congr 1
      simp only [List.length_drop, hq]
      omega
  dsimp only
  rw [hzi]
  dsimp only
  rw [Nat.zero_add, List.get?_eq_get hq1, List.get?_eq_get hq2]
  rcases q.get ⟨i, hq1⟩ with _ | a <;> rcases q.get ⟨count - 1 - i, hq2⟩ with _ | b <;> rfl

/-- C6: fixture generation follows the spec's circle method exactly — the
source generator and the generator transcribed from the spec's wording
agree on every input roster. -/
theorem round_robin_circle_spec (ids : List Nat) :
    _generate_round_robin ids = _generate_round_robin_spec ids := by
  rcases hp : padParticipants ids with _ | ⟨x, t⟩
  · unfold _generate_round_robin _generate_round_robin_spec
    rw [hp]
    rfl
  · have hlen : (padParticipants ids).length = t.length + 1 := by
      rw [hp]
      simp
    have hpar : (t.length + 1) % 2 = 0 := by
      have h1 := pad_length ids
      rw [h1] at hlen
      split_ifs at hlen <;> omega
    have htodd : t.length % 2 = 1 := by omega
    have htne : t ≠ [] := by
      intro hc
      rw [hc] at htodd
      simp at htodd
    unfold _generate_round_robin _generate_round_robin_spec
    rw [hp]
    simp only [List.length_cons, Nat.add_sub_cancel]
    rw [rrGo_eq_map]
    apply List.map_congr_left
    intro r hr
    rw [Nat.zero_add, specRotate_iterate x t htne r,
      iterate_rotateParticipants x t htne r]
    have harrlen : (x :: t.rotate (r * (t.length - 1))).length = t.length + 1 := by
      simp
    exact (specRoundPairs_eq (t.length + 1) r _ harrlen hpar).symm
end SRR
